import Mathlib

/-!
Shallow embedding of `pvops/timeseries/preprocess.py`.

Data frames are modelled as a list of column names, a list of row-index
labels and a list of rows of cells.  A cell is a `Val`: a rational number,
a string, a boolean, or `na` (pandas NaN / missing).  Column mappings
(`prod_col_dict`, `meta_col_dict`) are resolved to explicit string
parameters, matching the source's plain dictionary lookups.  The external
collaborators (pvlib solar position and clearsky, timezonefinder,
pvanalytics clearsky limits and clipping detectors) are black boxes and
enter the definitions as function parameters, as the specification
prescribes.  Fallible pandas operations return `Except PErr`.
-/

/-- A cell value of a data frame: number, string, boolean or missing (NaN). -/
inductive Val where
  | num (q : Rat)
  | str (s : String)
  | bool (b : Bool)
  | na
deriving DecidableEq, Repr

/-- A row of cells, positionally aligned with a frame's column list. -/
abbrev Row := List Val

/-- A pandas DataFrame: column names, row-index labels, and rows of cells. -/
structure Frame where
  cols : List String
  index : List Val
  rows : List Row
deriving DecidableEq, Repr

/-- A DataFrame whose index is a two-level MultiIndex of (site, group) pairs,
as produced by the right-censoring reconstructor. -/
structure MFrame where
  cols : List String
  index : List (Val × Val)
  rows : List Row
deriving DecidableEq, Repr

/-- Errors raised by the embedded pandas operations. -/
inductive PErr where
  | keyError (k : String)
  | lookupError (v : Val)
  | valueError (msg : String)
  | indexError
deriving DecidableEq, Repr

instance {ε α : Type} [DecidableEq ε] [DecidableEq α] : DecidableEq (Except ε α) := fun x y =>
  match x, y with
  | .ok a, .ok b =>
      if h : a = b then isTrue (by rw [h]) else
        isFalse (fun hc => h (by cases hc; rfl))
  | .ok _, .error _ => isFalse (fun hc => Except.noConfusion hc)
  | .error _, .ok _ => isFalse (fun hc => Except.noConfusion hc)
  | .error e, .error f =>
      if h : e = f then isTrue (by rw [h]) else
        isFalse (fun hc => h (by cases hc; rfl))

/-- Python truthiness of a cell value (`None` is handled by `Option`;
`Val.na` stands for a float NaN, which is truthy in Python). -/
def truthy : Val → Bool
  | .num q => q ≠ 0
  | .str s => s ≠ ""
  | .bool b => b
  | .na => true

/-- Index of the first occurrence of `c` in a label list. -/
def colIdxAux (c : String) : List String → Option Nat
  | [] => none
  | x :: t => if x = c then some 0 else (colIdxAux c t).map (fun i => i + 1)

/-- Position of a column label in a frame's column list (first occurrence). -/
def colIdx (f : Frame) (c : String) : Option Nat :=
  colIdxAux c f.cols

/-- `df[c]`: the values of column `c` down the rows; `KeyError` if absent. -/
def getCol (f : Frame) (c : String) : Except PErr (List Val) :=
  match colIdx f c with
  | none => .error (.keyError c)
  | some i => .ok (f.rows.map (fun r => r.getD i Val.na))

/-- `df[c] == v`: a boolean mask down the rows. -/
def maskEqCol (f : Frame) (c : String) (v : Val) : Except PErr (List Bool) :=
  (getCol f c).map (fun l => l.map (fun x => x = v))

/-- Keep the rows (and index labels) where the mask is true. -/
def filterRowsByMask (f : Frame) (m : List Bool) : Frame :=
  ⟨f.cols,
   ((f.index.zip f.rows).zip m).filterMap (fun p => if p.2 then some p.1.1 else none),
   ((f.index.zip f.rows).zip m).filterMap (fun p => if p.2 then some p.1.2 else none)⟩

/-- `series.unique()` / first-appearance deduplication. -/
def uniqueVals (l : List Val) : List Val :=
  l.foldl (fun acc v => if v ∈ acc then acc else acc ++ [v]) []

/-- Python `set(...)` of a value list, modelled as first-appearance
deduplication (Python's set iteration order is unspecified; the embedding
fixes this deterministic order). -/
def pySet (l : List Val) : List Val := uniqueVals l

/-- Overwrite the cells at column position `k` with `vals`, row by row. -/
def setColAtAux (k : Nat) : List Row → List Val → List Row
  | [], _ => []
  | r :: rs, vals => r.set k (vals.headD Val.na) :: setColAtAux k rs vals.tail

/-- Append one cell of `vals` to each row (a freshly created column). -/
def appendColAux : List Row → List Val → List Row
  | [], _ => []
  | r :: rs, vals => (r ++ [vals.headD Val.na]) :: appendColAux rs vals.tail

/-- Replace column `c` with the given values positionally, creating it at the
end of the column list when absent (pandas `df[c] = list_aligned_series`). -/
def setColList (f : Frame) (c : String) (vals : List Val) : Frame :=
  match colIdx f c with
  | some i => ⟨f.cols, f.index, setColAtAux i f.rows vals⟩
  | none => ⟨f.cols ++ [c], f.index, appendColAux f.rows vals⟩

/-- First value paired with label `k` in an index-aligned series. -/
def lookupSeries (s : List (Val × Val)) (k : Val) : Val :=
  match s.find? (fun p => p.1 = k) with
  | some p => p.2
  | none => Val.na

/-- `df[c] = series`: pandas aligns the series to the frame's row index;
labels absent from the series yield NaN. -/
def setColAligned (f : Frame) (c : String) (s : List (Val × Val)) : Frame :=
  setColList f c (f.index.map (fun ix => lookupSeries s ix))

/-- `df.loc[mask, c]`: the column values at the masked rows. -/
def locMaskGetCol (f : Frame) (m : List Bool) (c : String) : Except PErr (List Val) :=
  (getCol f c).map (fun l => ((l.zip m).filterMap (fun p => if p.2 then some p.1 else none)))

/-- Index labels of the masked rows (`df.loc[mask].index`). -/
def maskedIndex (f : Frame) (m : List Bool) : List Val :=
  (f.index.zip m).filterMap (fun p => if p.2 then some p.1 else none)

/-- `series.iloc[0]`; `IndexError` on an empty selection. -/
def ilocFirst (l : List Val) : Except PErr Val :=
  match l with
  | [] => .error .indexError
  | v :: _ => .ok v

/-- `meta_df.loc[site, c]`: index-label lookup of one cell (first matching
row); missing label raises. -/
def locIndex (f : Frame) (lbl : Val) (c : String) : Except PErr Val :=
  match colIdx f c with
  | none => .error (.keyError c)
  | some i =>
      match (f.index.zip f.rows).find? (fun p => p.1 = lbl) with
      | none => .error (.lookupError lbl)
      | some p => .ok (p.2.getD i Val.na)

/-- Ensure a column exists, returning its position (appending an all-NaN
column at the end when absent). -/
def ensureCol (f : Frame) (c : String) : Frame × Nat :=
  match colIdx f c with
  | some i => (f, i)
  | none => (⟨f.cols ++ [c], f.index, f.rows.map (fun r => r ++ [Val.na])⟩, f.cols.length)

/-- Write `vals` into column position `k` of the masked rows, in order. -/
def setMaskedAt (k : Nat) : List Row → List Bool → List Val → List Row
  | [], _, _ => []
  | r :: rs, [], _ => r :: rs
  | r :: rs, true :: ms, vals => (r.set k (vals.headD Val.na)) :: setMaskedAt k rs ms vals.tail
  | r :: rs, false :: ms, vals => r :: setMaskedAt k rs ms vals

/-- `df.loc[mask, c] = series_over_masked_rows` (series aligned to the masked
rows, hence positional); creates the column when absent. -/
def locMaskSetCol (f : Frame) (m : List Bool) (c : String) (vals : List Val) : Frame :=
  let fk := ensureCol f c
  ⟨fk.1.cols, fk.1.index, setMaskedAt fk.2 fk.1.rows m vals⟩

/-- Write one multi-column result row into a frame row. -/
def setRowVals (r : Row) (ks : List Nat) (vs : List Val) : Row :=
  (ks.zip vs).foldl (fun acc kv => acc.set kv.1 kv.2) r

/-- Write the rows of `valRows` across columns `ks` at the masked rows. -/
def setMaskedRowsAt (ks : List Nat) : List Row → List Bool → List Row → List Row
  | [], _, _ => []
  | r :: rs, [], _ => r :: rs
  | r :: rs, true :: ms, valRows =>
      setRowVals r ks (valRows.headD []) :: setMaskedRowsAt ks rs ms valRows.tail
  | r :: rs, false :: ms, valRows => r :: setMaskedRowsAt ks rs ms valRows

/-- Ensure several columns exist, returning their positions. -/
def ensureCols (f : Frame) : List String → Frame × List Nat
  | [] => (f, [])
  | c :: cs =>
      let fk := ensureCol f c
      let rest := ensureCols fk.1 cs
      (rest.1, fk.2 :: rest.2)

/-- `df.loc[mask, cols] = result_frame` with the result frame's rows aligned
to the masked rows (pvlib returns one row per masked timestamp). -/
def locMaskSetCols (f : Frame) (m : List Bool) (cs : List String) (valRows : List Row) : Frame :=
  let fks := ensureCols f cs
  ⟨fks.1.cols, fks.1.index, setMaskedRowsAt fks.2 fks.1.rows m valRows⟩

/-- Remove every occurrence of column label `c` (pandas `drop(columns=[c])`
removes the label wherever it occurs); positions are dropped from each row. -/
def eraseColRow (keep : List Bool) (r : Row) : Row :=
  (r.zip keep).filterMap (fun p => if p.2 then some p.1 else none)

/-- The frame without column `c`. -/
def eraseCol (f : Frame) (c : String) : Frame :=
  let keep := f.cols.map (fun x => decide (x ≠ c))
  ⟨f.cols.filter (fun x => decide (x ≠ c)), f.index, f.rows.map (eraseColRow keep)⟩

/-- `df.drop(columns=[c])`: `KeyError` when the label is absent. -/
def dropColE (f : Frame) (c : String) : Except PErr Frame :=
  if c ∈ f.cols then .ok (eraseCol f c) else .error (.keyError c)

/-- Cell of column `c` at row position `i`, with NaN for an absent column. -/
def cellAtD (f : Frame) (c : String) (i : Nat) : Val :=
  match colIdx f c with
  | none => Val.na
  | some k => (f.rows.getD i []).getD k Val.na

/-! ## Source function embeddings -/

/-- Division of two cells (pandas `Series.__truediv__` on numeric data;
non-numeric operands and division by zero are collapsed to NaN — no claim
probes those cells). -/
def vdiv : Val → Val → Val
  | .num a, .num b => if b = 0 then Val.na else Val.num (a / b)
  | _, _ => Val.na

/-- The six pvlib solar-position output columns written by
`establish_solar_loc`. -/
def positionalColumns : List String :=
  ["apparent_zenith", "zenith", "apparent_elevation", "elevation",
   "azimuth", "equation_of_time"]

/-- `establish_solar_loc(prod_df, prod_col_dict, meta_df, meta_col_dict)`.
`spa_python` is the black-box pvlib solar-position collaborator, taking the
masked row index (the timestamps), the longitude and the latitude, and
returning one row of the six positional values per timestamp.  Column
mappings are resolved to explicit string parameters (`siteidCol` is
`prod_col_dict['siteid']`, etc.).  Note the source derives the site list
from the literal column name `randid`, not from the mapping.
One iteration of the loop (source lines 52-58) is `solarStep`: mask the
production rows of `site`, look the site up in the metadata index, and
write the six positional columns returned by pvlib into the masked rows. -/
def solarStep (spa_python : List Val → Val → Val → List Row)
    (meta_df : Frame) (siteidCol longitudeCol latitudeCol : String)
    (acc : Frame) (site : Val) : Except PErr Frame := do
  let site_mask ← maskEqCol acc siteidCol site
  let times := maskedIndex acc site_mask
  let lon ← locIndex meta_df site longitudeCol
  let lat ← locIndex meta_df site latitudeCol
  pure (locMaskSetCols acc site_mask positionalColumns (spa_python times lon lat))

def establish_solar_loc
    (spa_python : List Val → Val → Val → List Row)
    (prod_df : Frame) (siteidCol : String)
    (meta_df : Frame) (longitudeCol latitudeCol : String) : Except PErr Frame := do
  let randid ← getCol prod_df "randid"
  let sites := uniqueVals randid
  sites.foldlM (solarStep spa_python meta_df siteidCol longitudeCol latitudeCol) prod_df

/-- `normalize_production_by_capacity(prod_df, prod_col_dict, meta_df,
meta_col_dict)` with the column mappings resolved to string parameters.
One iteration of its loop (source lines 109-117) is `normStep`: divide the
site's production values by the first matching capacity cell and write
them into the output column of the site's rows. -/
def normStep (meta_df : Frame) (siteidCol energyprodCol outputCol metaSiteCol dcsizeCol : String)
    (acc : Frame) (site : Val) : Except PErr Frame := do
  let site_meta_mask ← maskEqCol meta_df metaSiteCol site
  let site_prod_mask ← maskEqCol acc siteidCol site
  let powers ← locMaskGetCol acc site_prod_mask energyprodCol
  let caps ← locMaskGetCol meta_df site_meta_mask dcsizeCol
  let cap ← ilocFirst caps
  pure (locMaskSetCol acc site_prod_mask outputCol (powers.map (fun p => vdiv p cap)))

def normalize_production_by_capacity
    (prod_df : Frame) (siteidCol energyprodCol outputCol : String)
    (meta_df : Frame) (metaSiteCol dcsizeCol : String) : Except PErr Frame := do
  let metaSiteVals ← getCol meta_df metaSiteCol
  (pySet metaSiteVals).foldlM
    (normStep meta_df siteidCol energyprodCol outputCol metaSiteCol dcsizeCol) prod_df

/-- One iteration of the `prod_irradiance_filter` loop (source lines
179-240): per-site metadata and production masks, timestamp extraction,
latitude/longitude lookup, the timezone and clearsky black boxes, then the
`irradiance_type` dispatch.  The write on the valid branch is the source's
full-column, index-aligned assignment
`prod_df[clearsky_irr_name] = cs[irradiance_type]`; the tz-localize /
tz-strip round trip keeps the time labels unchanged. -/
def irrStep
    (timezone_at : Val → Val → Val)
    (get_clearsky : Val → Val → Val → List Val → String → List Val)
    (meta_df : Frame) (timestampCol siteidCol clearskyIrrCol : String)
    (metaSiteCol latitudeCol longitudeCol : String) (irradiance_type : String)
    (acc : Frame) (site : Val) : Except PErr Frame := do
  let site_meta_mask ← maskEqCol meta_df metaSiteCol site
  let site_prod_mask ← maskEqCol acc siteidCol site
  let prod_times ← locMaskGetCol acc site_prod_mask timestampCol
  let lats ← locMaskGetCol meta_df site_meta_mask latitudeCol
  let latitude ← ilocFirst lats
  let lons ← locMaskGetCol meta_df site_meta_mask longitudeCol
  let longitude ← ilocFirst lons
  let tz := timezone_at longitude latitude
  let cs := get_clearsky latitude longitude tz prod_times
  if irradiance_type = "poa" then
    throw (.valueError "POA is currently not configured")
  else if irradiance_type = "dni" ∨ irradiance_type = "ghi" ∨ irradiance_type = "dhi" then
    pure (setColAligned acc clearskyIrrCol (prod_times.zip (cs irradiance_type)))
  else
    throw (.valueError "Incorrect value passed to irradiance_type")

/-- The per-site loop of `prod_irradiance_filter` followed by the global
mask computation (everything before the `drop` branch).  Black boxes:
`timezone_at` (timezonefinder), `get_clearsky` (pvlib Location clearsky,
as a function from the component name to the per-timestamp values), and
`clearsky_limits` (pvanalytics). -/
def prodIrrCore
    (timezone_at : Val → Val → Val)
    (get_clearsky : Val → Val → Val → List Val → String → List Val)
    (clearsky_limits : List Val → List Val → Rat → List Bool)
    (prod_df : Frame) (timestampCol siteidCol irradianceCol clearskyIrrCol : String)
    (meta_df : Frame) (metaSiteCol latitudeCol longitudeCol : String)
    (irradiance_type : String) (csi_max : Rat) : Except PErr (Frame × List Bool) := do
  let metaSiteVals ← getCol meta_df metaSiteCol
  let prodF ← (pySet metaSiteVals).foldlM
    (irrStep timezone_at get_clearsky meta_df timestampCol siteidCol clearskyIrrCol
      metaSiteCol latitudeCol longitudeCol irradiance_type) prod_df
  let irr ← getCol prodF irradianceCol
  let csv ← getCol prodF clearskyIrrCol
  let mask_series := clearsky_limits irr csv csi_max
  let prodF2 := setColList prodF "mask" (mask_series.map Val.bool)
  pure (prodF2, mask_series)

/-- `prod_irradiance_filter(...)`: the per-site core, then the `drop`
branch (`prod_df[prod_df['mask'] == False]` and the in-place drop of the
mask column); the returned mask series is the pre-drop one. -/
def prod_irradiance_filter
    (timezone_at : Val → Val → Val)
    (get_clearsky : Val → Val → Val → List Val → String → List Val)
    (clearsky_limits : List Val → List Val → Rat → List Bool)
    (prod_df : Frame) (timestampCol siteidCol irradianceCol clearskyIrrCol : String)
    (meta_df : Frame) (metaSiteCol latitudeCol longitudeCol : String)
    (drop : Bool) (irradiance_type : String) (csi_max : Rat) :
    Except PErr (Frame × List Bool) := do
  let r ← prodIrrCore timezone_at get_clearsky clearsky_limits
    prod_df timestampCol siteidCol irradianceCol clearskyIrrCol
    meta_df metaSiteCol latitudeCol longitudeCol irradiance_type csi_max
  if ¬ drop then
    pure r
  else do
    let keep ← maskEqCol r.1 "mask" (Val.bool false)
    let f2 := filterRowsByMask r.1 keep
    let f3 ← dropColE f2 "mask"
    pure (f3, r.2)

/-- Parameters handed to `pvanalytics.features.clipping.geometric`. -/
structure GeoParams where
  window : Option Val
  slope_max : Val
  freq : Option Val
  tracking : Val
deriving DecidableEq, Repr

/-- Parameters handed to `pvanalytics.features.clipping.threshold`. -/
structure ThrParams where
  slope_max : Val
  power_min : Val
  power_quantile : Val
  freq : Option Val
deriving DecidableEq, Repr

/-- Parameters handed to `pvanalytics.features.clipping.levels`. -/
structure LevParams where
  window : Val
  fraction_in_window : Val
  rtol : Val
  levels : Val
deriving DecidableEq, Repr

/-- `kwargs.get(k)`: the supplied value, or `none` when absent. -/
def kwGet (kwargs : List (String × Val)) (k : String) : Option Val :=
  (kwargs.find? (fun p => p.1 = k)).map (fun p => p.2)

/-- Python `x or d` applied to `kwargs.get(k)`: the default both when the
key is absent and when the supplied value is falsy. -/
def pyOr (o : Option Val) (d : Val) : Val :=
  match o with
  | some v => if truthy v then v else d
  | none => d

/-- Parameter resolution of the `geometric` branch (source lines 310-313):
`window = kwargs.get('window')`, `slope_max = kwargs.get('slope_max') or
0.2`, `freq = kwargs.get('freq')`, `tracking = kwargs.get('tracking') or
False`.  The source's decimal literals are written as explicit fractions
(`mkRat 1 5 = 0.2`, proved below). -/
def resolveGeometric (kwargs : List (String × Val)) : GeoParams :=
  ⟨kwGet kwargs "window",
   pyOr (kwGet kwargs "slope_max") (Val.num (mkRat 1 5)),
   kwGet kwargs "freq",
   pyOr (kwGet kwargs "tracking") (Val.bool false)⟩

/-- Parameter resolution of the `threshold` branch (source lines 318-321):
defaults 0.0035, 0.75 and 0.995 as fractions. -/
def resolveThreshold (kwargs : List (String × Val)) : ThrParams :=
  ⟨pyOr (kwGet kwargs "slope_max") (Val.num (mkRat 7 2000)),
   pyOr (kwGet kwargs "power_min") (Val.num (mkRat 3 4)),
   pyOr (kwGet kwargs "power_quantile") (Val.num (mkRat 199 200)),
   kwGet kwargs "freq"⟩

/-- Parameter resolution of the `levels` branch (source lines 326-329):
defaults 4, 0.75, 0.005 and 2, the decimals as fractions. -/
def resolveLevels (kwargs : List (String × Val)) : LevParams :=
  ⟨pyOr (kwGet kwargs "window") (Val.num 4),
   pyOr (kwGet kwargs "fraction_in_window") (Val.num (mkRat 3 4)),
   pyOr (kwGet kwargs "rtol") (Val.num (mkRat 1 200)),
   pyOr (kwGet kwargs "levels") (Val.num 2)⟩

theorem geometric_slope_default_literal : (mkRat 1 5 : Rat) = (0.2 : Rat) := by
  norm_num [Rat.mkRat_eq_div]

theorem threshold_slope_default_literal : (mkRat 7 2000 : Rat) = (0.0035 : Rat) := by
  norm_num [Rat.mkRat_eq_div]

theorem threshold_power_min_default_literal : (mkRat 3 4 : Rat) = (0.75 : Rat) := by
  norm_num [Rat.mkRat_eq_div]

theorem threshold_power_quantile_default_literal : (mkRat 199 200 : Rat) = (0.995 : Rat) := by
  norm_num [Rat.mkRat_eq_div]

theorem levels_rtol_default_literal : (mkRat 1 200 : Rat) = (0.005 : Rat) := by
  norm_num [Rat.mkRat_eq_div]

/-- One iteration of the `prod_inverter_clipping_filter` loop (source
lines 300-335): extract the site's power series, skip the site when it is
empty, otherwise dispatch on `model` and write the detector's mask into
the site's rows of the shared mask column.  The three pvanalytics
detectors are black-box parameters taking the site's power series and the
resolved parameter record and returning a boolean mask aligned to that
series. -/
def clipStep
    (geometric : List Val → GeoParams → List Bool)
    (threshold : List Val → ThrParams → List Bool)
    (levels : List Val → LevParams → List Bool)
    (siteidCol powerprodCol model : String) (kwargs : List (String × Val))
    (acc : Frame) (site : Val) : Except PErr Frame := do
  let site_prod_mask ← maskEqCol acc siteidCol site
  let ac_power ← locMaskGetCol acc site_prod_mask powerprodCol
  if ac_power.length = 0 then
    pure acc
  else if model = "geometric" then
    pure (locMaskSetCol acc site_prod_mask "mask"
      ((geometric ac_power (resolveGeometric kwargs)).map Val.bool))
  else if model = "threshold" then
    pure (locMaskSetCol acc site_prod_mask "mask"
      ((threshold ac_power (resolveThreshold kwargs)).map Val.bool))
  else if model = "levels" then
    pure (locMaskSetCol acc site_prod_mask "mask"
      ((levels ac_power (resolveLevels kwargs)).map Val.bool))
  else
    throw (.valueError "Invalid value passed to parameter calculation")

def prod_inverter_clipping_filter
    (geometric : List Val → GeoParams → List Bool)
    (threshold : List Val → ThrParams → List Bool)
    (levels : List Val → LevParams → List Bool)
    (prod_df : Frame) (siteidCol powerprodCol : String)
    (meta_df : Frame) (metaSiteCol : String)
    (model : String) (kwargs : List (String × Val)) : Except PErr Frame := do
  let metaSiteVals ← getCol meta_df metaSiteCol
  (pySet metaSiteVals).foldlM
    (clipStep geometric threshold levels siteidCol powerprodCol model kwargs) prod_df

/-! ## Right-censoring reconstructor -/

/-- First non-NaN value of a list (pandas `GroupBy.first` semantics,
`skipna=True`), NaN when all values are missing. -/
def firstNonNa (l : List Val) : Val :=
  match l.find? (fun v => decide (v ≠ Val.na)) with
  | some v => v
  | none => Val.na

/-- Last non-NaN value of a list (pandas `GroupBy.last` semantics). -/
def lastNonNa (l : List Val) : Val := firstNonNa l.reverse

/-- Unique (site, group) pairs in row order, dropping rows whose site or
group key is NaN (pandas `groupby(..., dropna=True)`). -/
def keyPairs (svals gvals : List Val) : List (Val × Val) :=
  ((svals.zip gvals).filter
      (fun p => decide (p.1 ≠ Val.na) && decide (p.2 ≠ Val.na))).foldl
    (fun acc v => if v ∈ acc then acc else acc ++ [v]) []

/-- Unique non-NaN site keys in row order (`groupby(site)` keys). -/
def siteKeysList (svals : List Val) : List Val :=
  uniqueVals (svals.filter (fun v => decide (v ≠ Val.na)))

/-- Column labels remaining after grouping by `site` and `group_by`. -/
def otherCols (cols : List String) (siteC groupC : String) : List String :=
  cols.filter (fun c => decide (c ≠ siteC) && decide (c ≠ groupC))

/-- Positions of the columns remaining after grouping by both keys. -/
def remainingIdxs (cols : List String) (siteC groupC : String) : List Nat :=
  (cols.enum.filter (fun p => decide (p.2 ≠ siteC) && decide (p.2 ≠ groupC))).map
    (fun p => p.1)

/-- Column labels remaining after grouping by `site` only. -/
def lastColsPre (cols : List String) (siteC : String) : List String :=
  cols.filter (fun c => decide (c ≠ siteC))

/-- Positions of the columns remaining after grouping by `site` only. -/
def lastIdxs (cols : List String) (siteC : String) : List Nat :=
  (cols.enum.filter (fun p => decide (p.2 ≠ siteC))).map (fun p => p.1)

/-- Rows of the (site, group) pair `k`. -/
def subRowsPair (om : Frame) (si gi : Nat) (k : Val × Val) : List Row :=
  om.rows.filter (fun r => decide (r.getD si Val.na = k.1) && decide (r.getD gi Val.na = k.2))

/-- Rows of site `s`. -/
def subRowsSite (om : Frame) (si : Nat) (s : Val) : List Row :=
  om.rows.filter (fun r => decide (r.getD si Val.na = s))

/-- Aggregate the columns at positions `colIdxs` over `rs` with `agg`. -/
def aggRow (colIdxs : List Nat) (agg : List Val → Val) (rs : List Row) : Row :=
  colIdxs.map (fun ci => agg (rs.map (fun r => r.getD ci Val.na)))

/-- `df['was_observed'] = v` on a column list: overwrite the column in
place when it already exists, otherwise append it. -/
def flagCols (cols : List String) : List String :=
  if "was_observed" ∈ cols then cols else cols ++ ["was_observed"]

/-- The row counterpart of `flagCols`. -/
def flagRow (cols : List String) (r : Row) (v : Val) : Row :=
  match colIdxAux "was_observed" cols with
  | some i => r.set i v
  | none => r ++ [v]

/-- The aggregated row of one jointly observed (site, group) pair: per
column, the first non-NaN value over that pair's rows, with
`was_observed = True`. -/
def firstRowFor (om : Frame) (siteC groupC : String) (si gi : Nat) (k : Val × Val) : Row :=
  flagRow (otherCols om.cols siteC groupC)
    (aggRow (remainingIdxs om.cols siteC groupC) firstNonNa (subRowsPair om si gi k))
    (Val.bool true)

/-- `om_df.groupby([site, group_by]).first()` followed by
`['was_observed'] = True`: for each jointly observed non-NaN (site, group)
pair, the per-column first non-NaN value over that pair's rows. -/
def firstFailsList (om : Frame) (siteC groupC : String) (si gi : Nat) :
    List ((Val × Val) × Row) :=
  (keyPairs (om.rows.map (fun r => r.getD si Val.na))
            (om.rows.map (fun r => r.getD gi Val.na))).map
    (fun k => (k, firstRowFor om siteC groupC si gi k))

/-- The censored row of one site: per column (site column excluded), the
last non-NaN value over that site's rows, the group column dropped after
aggregation, with `was_observed = False`. -/
def lastRowFor (om : Frame) (siteC groupC : String) (si : Nat) (s : Val) : Row :=
  let cs0 := lastColsPre om.cols siteC
  let gpos := colIdxAux groupC cs0
  let csD := match gpos with | some p => cs0.eraseIdx p | none => cs0
  let full := aggRow (lastIdxs om.cols siteC) lastNonNa (subRowsSite om si s)
  let dropped := match gpos with | some p => full.eraseIdx p | none => full
  flagRow csD dropped (Val.bool false)

/-- `om_df.groupby(site).last().drop(columns=[group_by])` followed by
`['was_observed'] = False`: for each non-NaN site, the per-column last
non-NaN value over that site's rows, with the group column dropped after
aggregation. -/
def lastFailsList (om : Frame) (siteC groupC : String) (si : Nat) :
    List (Val × Row) :=
  (siteKeysList (om.rows.map (fun r => r.getD si Val.na))).map
    (fun s => (s, lastRowFor om siteC groupC si s))

/-- First row keyed `k` in a keyed row list. -/
def lookupKey (l : List (Val × Row)) (k : Val) : Option Row :=
  (l.find? (fun p => p.1 = k)).map (fun p => p.2)

/-- The Cartesian product of two label lists, site-major
(`pd.MultiIndex.from_product`). -/
def crossProd (ss gs : List Val) : List (Val × Val) :=
  ss.foldr (fun s acc => gs.map (fun g => (s, g)) ++ acc) []

/-- One iteration of the censored prefill loop:
`all_sites_assets_df.loc[(unique_site, slice(None)), :] =
last_fails_df.loc[unique_site].values` — every row of site `s` receives
that site's last-fails row; a site absent from the `groupby(site)` result
(a NaN site label) raises the lookup failure of `.loc`. -/
def prefillStep (lastF : List (Val × Row)) (acc : List ((Val × Val) × Row)) (s : Val) :
    Except PErr (List ((Val × Val) × Row)) :=
  match lookupKey lastF s with
  | none => throw (.lookupError s)
  | some r => pure (acc.map (fun kr => if kr.1.1 = s then (kr.1, r) else kr))

/-- The observed overwrite,
`all_sites_assets_df.loc[first_fails_df.index] = first_fails_df`, one
first-fails row at a time: label-aligned replacement. -/
def overwriteStep (acc : List ((Val × Val) × Row)) (fr : (Val × Val) × Row) :
    List ((Val × Val) × Row) :=
  acc.map (fun kr => if kr.1 = fr.1 then (kr.1, fr.2) else kr)

/-- `identify_right_censored_data(om_df, col_dict)` with the mapping
resolved to the two strings `group_by` and `site`.  Cell dtypes are not
represented (`Val` is untyped), so the source's trailing
`astype(first_fails_df.dtypes)` and the `dtype=` constructor argument are
identities here. -/
def identify_right_censored_data (om : Frame) (group_by site : String) :
    Except PErr MFrame := do
  if site = group_by then
    throw (.valueError "Grouper not 1-dimensional")
  else
    match colIdx om site, colIdx om group_by with
    | some si, some gi =>
      let svals := om.rows.map (fun r => r.getD si Val.na)
      let gvals := om.rows.map (fun r => r.getD gi Val.na)
      let firstF := firstFailsList om site group_by si gi
      let lastF := lastFailsList om site group_by si
      let outCols := flagCols (otherCols om.cols site group_by)
      let unique_sites := uniqueVals svals
      let unique_group_bys := uniqueVals gvals
      let prodIdx := crossProd unique_sites unique_group_bys
      let pairs0 := prodIdx.map (fun k => (k, outCols.map (fun _ => Val.na)))
      let pairs1 ← unique_sites.foldlM (prefillStep lastF) pairs0
      let pairs2 := firstF.foldl overwriteStep pairs1
      pure ⟨outCols, pairs2.map (fun p => p.1), pairs2.map (fun p => p.2)⟩
    | none, _ => throw (.keyError site)
    | _, none => throw (.keyError group_by)

/-- Label lookup of a row in the censoring output (`result.loc[(s, g)]`). -/
def rowAt (F : MFrame) (k : Val × Val) : Option Row :=
  ((F.index.zip F.rows).find? (fun p => p.1 = k)).map (fun p => p.2)

/-! ## Heap-level wrappers

Frame objects live in a store of mutable references.  Each operation
receives references to the caller-owned frames, allocates fresh copies
(`prod_df = prod_df.copy()`, `meta_df = meta_df.copy()`), performs all of
its writes against the fresh references only, and returns the reference
holding its result.  These wrappers make the mutation discipline of the
source explicit so that non-interference with the caller's objects is a
provable statement rather than a byproduct of a pure encoding. -/

/-- A heap of frame objects. -/
abbrev Store := List Frame

/-- Dereference (an invalid reference yields the empty frame). -/
def Store.read (σ : Store) (r : Nat) : Frame := σ.getD r ⟨[], [], []⟩

/-- Allocate a fresh frame object, returning its reference. -/
def Store.alloc (σ : Store) (f : Frame) : Store × Nat := (σ ++ [f], σ.length)

/-- Overwrite the object at an existing reference (in-place mutation). -/
def Store.write (σ : Store) (r : Nat) (f : Frame) : Store := σ.set r f

/-- Heap-level `establish_solar_loc`: copy both inputs, mutate only the
production copy, return its reference. -/
def establish_solar_loc_st (spa_python : List Val → Val → Val → List Row)
    (σ : Store) (prodRef : Nat) (siteidCol : String)
    (metaRef : Nat) (longitudeCol latitudeCol : String) : Store × Except PErr Nat :=
  let a1 := σ.alloc (σ.read prodRef)
  let a2 := a1.1.alloc (a1.1.read metaRef)
  match establish_solar_loc spa_python (a2.1.read a1.2) siteidCol
      (a2.1.read a2.2) longitudeCol latitudeCol with
  | .error e => (a2.1, .error e)
  | .ok f => ((a2.1.write a1.2 f), .ok a1.2)

/-- Heap-level `normalize_production_by_capacity`. -/
def normalize_production_by_capacity_st
    (σ : Store) (prodRef : Nat) (siteidCol energyprodCol outputCol : String)
    (metaRef : Nat) (metaSiteCol dcsizeCol : String) : Store × Except PErr Nat :=
  let a1 := σ.alloc (σ.read prodRef)
  let a2 := a1.1.alloc (a1.1.read metaRef)
  match normalize_production_by_capacity (a2.1.read a1.2) siteidCol energyprodCol
      outputCol (a2.1.read a2.2) metaSiteCol dcsizeCol with
  | .error e => (a2.1, .error e)
  | .ok f => ((a2.1.write a1.2 f), .ok a1.2)

/-- Heap-level `prod_irradiance_filter`: copy both inputs, mutate the
production copy; with `drop` the boolean filtering builds a further fresh
frame whose reference is returned. -/
def prod_irradiance_filter_st
    (timezone_at : Val → Val → Val)
    (get_clearsky : Val → Val → Val → List Val → String → List Val)
    (clearsky_limits : List Val → List Val → Rat → List Bool)
    (σ : Store) (prodRef : Nat) (timestampCol siteidCol irradianceCol clearskyIrrCol : String)
    (metaRef : Nat) (metaSiteCol latitudeCol longitudeCol : String)
    (drop : Bool) (irradiance_type : String) (csi_max : Rat) :
    Store × Except PErr (Nat × List Bool) :=
  let a1 := σ.alloc (σ.read prodRef)
  let a2 := a1.1.alloc (a1.1.read metaRef)
  match prodIrrCore timezone_at get_clearsky clearsky_limits
      (a2.1.read a1.2) timestampCol siteidCol irradianceCol clearskyIrrCol
      (a2.1.read a2.2) metaSiteCol latitudeCol longitudeCol irradiance_type csi_max with
  | .error e => (a2.1, .error e)
  | .ok fm =>
    let σ3 := a2.1.write a1.2 fm.1
    if ¬ drop then (σ3, .ok (a1.2, fm.2))
    else
      match (do
          let keep ← maskEqCol fm.1 "mask" (Val.bool false)
          dropColE (filterRowsByMask fm.1 keep) "mask" : Except PErr Frame) with
      | .error e => (σ3, .error e)
      | .ok f2 =>
        let a3 := σ3.alloc f2
        (a3.1, .ok (a3.2, fm.2))

/-- Heap-level `prod_inverter_clipping_filter`. -/
def prod_inverter_clipping_filter_st
    (geometric : List Val → GeoParams → List Bool)
    (threshold : List Val → ThrParams → List Bool)
    (levels : List Val → LevParams → List Bool)
    (σ : Store) (prodRef : Nat) (siteidCol powerprodCol : String)
    (metaRef : Nat) (metaSiteCol : String)
    (model : String) (kwargs : List (String × Val)) : Store × Except PErr Nat :=
  let a1 := σ.alloc (σ.read prodRef)
  let a2 := a1.1.alloc (a1.1.read metaRef)
  match prod_inverter_clipping_filter geometric threshold levels
      (a2.1.read a1.2) siteidCol powerprodCol (a2.1.read a2.2) metaSiteCol model kwargs with
  | .error e => (a2.1, .error e)
  | .ok f => ((a2.1.write a1.2 f), .ok a1.2)

/-- Heap-level `identify_right_censored_data`: the source never writes to
`om_df` (every intermediate is a freshly constructed frame), so the store
is untouched and the fresh result is returned by value. -/
def identify_right_censored_data_st
    (σ : Store) (omRef : Nat) (group_by site : String) : Store × Except PErr MFrame :=
  (σ, identify_right_censored_data (σ.read omRef) group_by site)

/-! ## General lemmas about the embedding's primitives -/

theorem uniqueVals_aux_mem (a : Val) :
    ∀ (l acc : List Val),
      (a ∈ l.foldl (fun acc v => if v ∈ acc then acc else acc ++ [v]) acc ↔ a ∈ acc ∨ a ∈ l) := by
  intro l
  induction l with
  | nil => intro acc; simp
  | cons v t ih =>
    intro acc
    by_cases hv : v ∈ acc
    · simp only [List.foldl_cons, if_pos hv, ih acc, List.mem_cons]
      constructor
      · rintro (h | h)
        · exact Or.inl h
        · exact Or.inr (Or.inr h)
      · rintro (h | h | h)
        · exact Or.inl h
        · exact Or.inl (h ▸ hv)
        · exact Or.inr h
    · simp only [List.foldl_cons, if_neg hv, ih (acc ++ [v]), List.mem_append,
        List.mem_singleton, List.mem_cons]
      tauto

theorem mem_uniqueVals (a : Val) (l : List Val) : a ∈ uniqueVals l ↔ a ∈ l := by
  unfold uniqueVals
  rw [uniqueVals_aux_mem]
  simp

theorem uniqueVals_aux_nodup :
    ∀ (l acc : List Val), acc.Nodup →
      (l.foldl (fun acc v => if v ∈ acc then acc else acc ++ [v]) acc).Nodup := by
  intro l
  induction l with
  | nil => intro acc h; simpa using h
  | cons v t ih =>
    intro acc h
    by_cases hv : v ∈ acc
    · simp only [List.foldl_cons, if_pos hv]
      exact ih acc h
    · simp only [List.foldl_cons, if_neg hv]
      refine ih (acc ++ [v]) ?_
      rw [List.nodup_append]
      refine ⟨h, List.nodup_singleton v, ?_⟩
      intro a ha hb
      simp only [List.mem_singleton] at hb
      subst hb
      exact hv ha

theorem nodup_uniqueVals (l : List Val) : (uniqueVals l).Nodup :=
  uniqueVals_aux_nodup l [] List.nodup_nil

theorem mem_crossProd (p : Val × Val) (ss gs : List Val) :
    p ∈ crossProd ss gs ↔ p.1 ∈ ss ∧ p.2 ∈ gs := by
  induction ss with
  | nil => simp [crossProd]
  | cons s t ih =>
    simp only [crossProd, List.foldr_cons, List.mem_append, List.mem_map, List.mem_cons]
    rw [show (List.foldr (fun s acc => List.map (fun g => (s, g)) gs ++ acc) [] t) =
        crossProd t gs from rfl] at *
    constructor
    · rintro (⟨g, hg, rfl⟩ | h)
      · exact ⟨Or.inl rfl, hg⟩
      · rcases ih.1 h with ⟨h1, h2⟩
        exact ⟨Or.inr h1, h2⟩
    · rintro ⟨h1 | h1, h2⟩
      · left
        exact ⟨p.2, h2, by rw [← h1]⟩
      · right
        exact ih.2 ⟨h1, h2⟩

theorem nodup_crossProd (ss gs : List Val) (hs : ss.Nodup) (hg : gs.Nodup) :
    (crossProd ss gs).Nodup := by
  induction ss with
  | nil => simp [crossProd]
  | cons s t ih =>
    rcases List.nodup_cons.1 hs with ⟨hst, ht⟩
    show (List.map (fun g => (s, g)) gs ++ crossProd t gs).Nodup
    rw [List.nodup_append]
    refine ⟨List.Nodup.map (fun a b hab => by
        simpa using congrArg Prod.snd hab) hg, ih ht, ?_⟩
    intro p hp1 hp2
    rcases List.mem_map.1 hp1 with ⟨g, _, rfl⟩
    exact hst ((mem_crossProd (s, g) t gs).1 hp2).1

theorem foldlM_ok_inv {α β : Type} (P : β → Prop) (f : β → α → Except PErr β) :
    ∀ (l : List α) (b b2 : β),
      (∀ acc a c, a ∈ l → P acc → f acc a = .ok c → P c) →
      l.foldlM f b = .ok b2 → P b → P b2 := by
  intro l
  induction l with
  | nil =>
    intro b b2 _ hfold hb
    simp only [List.foldlM_nil] at hfold
    cases hfold
    exact hb
  | cons a t ih =>
    intro b b2 hstep hfold hb
    rw [List.foldlM_cons] at hfold
    cases hfa : f b a with
    | error e => rw [hfa] at hfold; exact absurd hfold (by simp [Bind.bind, Except.bind])
    | ok c =>
      rw [hfa] at hfold
      simp only [Bind.bind, Except.bind] at hfold
      exact ih c b2 (fun acc x d hx => hstep acc x d (List.mem_cons_of_mem a hx)) hfold
        (hstep b a c (List.mem_cons_self a t) hb hfa)

theorem foldlM_ok_of {α β : Type} (P : β → Prop) (f : β → α → Except PErr β) :
    ∀ (l : List α) (b : β),
      (∀ acc a, a ∈ l → P acc → ∃ c, f acc a = .ok c ∧ P c) →
      P b → ∃ b2, l.foldlM f b = .ok b2 ∧ P b2 := by
  intro l
  induction l with
  | nil =>
    intro b _ hb
    refine ⟨b, ?_, hb⟩
    simp only [List.foldlM_nil]
    rfl
  | cons a t ih =>
    intro b hstep hb
    rcases hstep b a (List.mem_cons_self a t) hb with ⟨c, hfa, hc⟩
    rcases ih c (fun acc x hx => hstep acc x (List.mem_cons_of_mem a hx)) hc with ⟨b2, hfold, hb2⟩
    refine ⟨b2, ?_, hb2⟩
    rw [List.foldlM_cons, hfa]
    simpa [Bind.bind, Except.bind] using hfold

theorem foldlM_err_of {α β : Type} (P : β → Prop) (Q : α → Prop) (E : PErr → Prop)
    (f : β → α → Except PErr β) :
    ∀ (l : List α) (b : β), P b →
      (∃ a, a ∈ l ∧ Q a) →
      (∀ acc a, a ∈ l → P acc → ¬ Q a → ∃ c, f acc a = .ok c ∧ P c) →
      (∀ acc a, a ∈ l → P acc → Q a → ∃ e, f acc a = .error e ∧ E e) →
      ∃ e, l.foldlM f b = .error e ∧ E e := by
  intro l
  induction l with
  | nil =>
    intro b _ hex _ _
    rcases hex with ⟨a, ha, _⟩
    exact absurd ha (List.not_mem_nil a)
  | cons a t ih =>
    intro b hb hex hgood hbad
    by_cases hqa : Q a
    · rcases hbad b a (List.mem_cons_self a t) hb hqa with ⟨e, hfa, he⟩
      refine ⟨e, ?_, he⟩
      rw [List.foldlM_cons, hfa]
      rfl
    · rcases hgood b a (List.mem_cons_self a t) hb hqa with ⟨c, hfa, hc⟩
      have hex2 : ∃ x, x ∈ t ∧ Q x := by
        rcases hex with ⟨x, hx, hqx⟩
        rcases List.mem_cons.1 hx with rfl | hx2
        · exact absurd hqx hqa
        · exact ⟨x, hx2, hqx⟩
      rcases ih c hc hex2 (fun acc x hx => hgood acc x (List.mem_cons_of_mem a hx))
        (fun acc x hx => hbad acc x (List.mem_cons_of_mem a hx)) with ⟨e, hfold, he⟩
      refine ⟨e, ?_, he⟩
      rw [List.foldlM_cons, hfa]
      simpa [Bind.bind, Except.bind] using hfold

theorem getCol_colIdx (f : Frame) (c : String) (vals : List Val)
    (h : getCol f c = .ok vals) :
    ∃ i, colIdx f c = some i ∧ vals = f.rows.map (fun r => r.getD i Val.na) := by
  unfold getCol at h
  cases hci : colIdx f c with
  | none => rw [hci] at h; exact absurd h (by simp)
  | some i =>
    rw [hci] at h
    cases h
    exact ⟨i, rfl, rfl⟩

theorem overwrite_keys (firstF : List ((Val × Val) × Row)) :
    ∀ (pairs : List ((Val × Val) × Row)),
      ((firstF.foldl overwriteStep pairs).map (fun p => p.1)) = pairs.map (fun p => p.1) := by
  induction firstF with
  | nil => intro pairs; rfl
  | cons fr t ih =>
    intro pairs
    rw [List.foldl_cons, ih]
    unfold overwriteStep
    rw [List.map_map]
    refine List.map_congr_left ?_
    intro kr _
    by_cases h : kr.1 = fr.1 <;> simp [h]

theorem prefillStep_ok (lastF : List (Val × Row)) (acc c : List ((Val × Val) × Row))
    (s : Val) (h : prefillStep lastF acc s = .ok c) :
    ∃ r, lookupKey lastF s = some r ∧
      c = acc.map (fun kr => if kr.1.1 = s then (kr.1, r) else kr) := by
  unfold prefillStep at h
  cases hl : lookupKey lastF s with
  | none =>
    rw [hl] at h
    exact absurd h (by simp [throw, throwThe, MonadExceptOf.throw])
  | some r =>
    rw [hl] at h
    cases h
    exact ⟨r, rfl, rfl⟩

theorem prefill_keys (lastF : List (Val × Row)) (sitesL : List Val)
    (pairs pairs1 : List ((Val × Val) × Row))
    (hfold : sitesL.foldlM (prefillStep lastF) pairs = .ok pairs1) :
    pairs1.map (fun p => p.1) = pairs.map (fun p => p.1) := by
  refine foldlM_ok_inv (fun acc => acc.map (fun p => p.1) = pairs.map (fun p => p.1))
    _ sitesL pairs pairs1 ?_ hfold rfl
  intro acc s c _ hP hstep
  rcases prefillStep_ok lastF acc c s hstep with ⟨r, _, rfl⟩
  rw [List.map_map, ← hP]
  refine List.map_congr_left ?_
  intro kr _
  by_cases h : kr.1.1 = s <;> simp [h]

/-- Claim C2: for every non-empty event dataset, the index of the dataset
returned by identify_right_censored_data is exactly the Cartesian product
of the distinct site values and the distinct group values occurring in the
input: every such pair appears exactly once and no other pair appears. -/
theorem C2_censoring_full_crossproduct
    (om : Frame) (group_by site : String) (F : MFrame) (svals gvals : List Val)
    (hne : om.rows ≠ [])
    (hs : getCol om site = .ok svals) (hg : getCol om group_by = .ok gvals)
    (hok : identify_right_censored_data om group_by site = .ok F) :
    F.index = crossProd (uniqueVals svals) (uniqueVals gvals) ∧
    (∀ p : Val × Val, p ∈ F.index ↔ p.1 ∈ uniqueVals svals ∧ p.2 ∈ uniqueVals gvals) ∧
    F.index.Nodup := by
  have hsg : ¬ site = group_by := by
    intro h
    rw [identify_right_censored_data, if_pos h] at hok
    exact absurd hok (by simp [throw, throwThe, MonadExceptOf.throw])
  rcases getCol_colIdx om site svals hs with ⟨si, hci, hsv⟩
  rcases getCol_colIdx om group_by gvals hg with ⟨gi, hcg, hgv⟩
  rw [identify_right_censored_data, if_neg hsg, hci, hcg] at hok
  dsimp only at hok
  cases hfold : (uniqueVals (om.rows.map (fun r => r.getD si Val.na))).foldlM
      (prefillStep (lastFailsList om site group_by si))
      ((crossProd (uniqueVals (om.rows.map (fun r => r.getD si Val.na)))
          (uniqueVals (om.rows.map (fun r => r.getD gi Val.na)))).map
        (fun k => (k, (flagCols (otherCols om.cols site group_by)).map (fun _ => Val.na)))) with
  | error e =>
    rw [hfold] at hok
    exact absurd hok (by simp [Bind.bind, Except.bind])
  | ok pairs1 =>
    rw [hfold] at hok
    simp only [Bind.bind, Except.bind, pure, Except.pure, Except.ok.injEq] at hok
    have hF : F.index =
        ((firstFailsList om site group_by si gi).foldl overwriteStep pairs1).map
          (fun p => p.1) := by
      rw [← hok]
    rw [overwrite_keys, prefill_keys _ _ _ _ hfold, List.map_map] at hF
    have hid : F.index = crossProd (uniqueVals svals) (uniqueVals gvals) := by
      rw [hF, hsv, hgv]
      exact (List.map_congr_left (fun a _ => rfl)).trans (List.map_id _)
    refine ⟨hid, ?_, ?_⟩
    · intro p
      rw [hid, mem_crossProd]
    · rw [hid]
      exact nodup_crossProd _ _ (nodup_uniqueVals _) (nodup_uniqueVals _)

/-! ## Concrete instances

Small event/production/metadata frames and black-box instantiations used
to evaluate the embedded functions at specific inputs. -/

/-- The event dataset of the specification's worked example: site A with
group G1 events at t=5 and t=9, site B with one group G2 event at t=3. -/
def omExample : Frame :=
  ⟨["sid", "grp", "t"], [Val.num 0, Val.num 1, Val.num 2],
   [[Val.str "A", Val.str "G1", Val.num 5],
    [Val.str "A", Val.str "G1", Val.num 9],
    [Val.str "B", Val.str "G2", Val.num 3]]⟩

/-- Site column of `omExample`. -/
def omExampleSiteVals : List Val := [Val.str "A", Val.str "A", Val.str "B"]

/-- Group column of `omExample`. -/
def omExampleGroupVals : List Val := [Val.str "G1", Val.str "G1", Val.str "G2"]

/-- The reconstructed censoring frame of `omExample`. -/
def censExample : MFrame :=
  ⟨["t", "was_observed"],
   [(Val.str "A", Val.str "G1"), (Val.str "A", Val.str "G2"),
    (Val.str "B", Val.str "G1"), (Val.str "B", Val.str "G2")],
   [[Val.num 5, Val.bool true], [Val.num 9, Val.bool false],
    [Val.num 3, Val.bool false], [Val.num 3, Val.bool true]]⟩

/-- An event dataset whose (A, G) pair's first row carries a missing
observation value: rows (A, G, NaN) then (A, G, 5). -/
def omNaExample : Frame :=
  ⟨["sid", "grp", "obs"], [Val.num 0, Val.num 1],
   [[Val.str "A", Val.str "G", Val.na],
    [Val.str "A", Val.str "G", Val.num 5]]⟩

/-- Production frame with two sites, one timestamp-indexed row each. -/
def prodIrrExample : Frame :=
  ⟨["ts", "sid", "irr", "csirr"], [Val.num 10, Val.num 20],
   [[Val.num 10, Val.str "A", Val.num 100, Val.num 1],
    [Val.num 20, Val.str "B", Val.num 200, Val.num 1]]⟩

/-- Metadata for `prodIrrExample`: sites A and B at distinct locations. -/
def metaIrrExample : Frame :=
  ⟨["msid", "lat", "lon"], [Val.num 0, Val.num 1],
   [[Val.str "A", Val.num 1, Val.num 11],
    [Val.str "B", Val.num 2, Val.num 22]]⟩

/-- Metadata frame with the required columns but zero site rows. -/
def metaEmptyExample : Frame := ⟨["msid", "lat", "lon"], [], []⟩

/-- A timezone lookup black box. -/
def tzConst : Val → Val → Val := fun _ _ => Val.str "Etc"

/-- A clearsky black box whose every component value is the latitude it was
called with, so the produced values identify the site whose location was
used. -/
def csLatitude : Val → Val → Val → List Val → String → List Val :=
  fun lat _ _ times _ => times.map (fun _ => lat)

/-- A clearsky-limits black box flagging nothing. -/
def limitsFalse : List Val → List Val → Rat → List Bool :=
  fun a _ _ => a.map (fun _ => false)

/-- The frame produced by the clearsky filter core on `prodIrrExample` /
`metaIrrExample` with the black boxes above. -/
def C3Result : Frame :=
  ⟨["ts", "sid", "irr", "csirr", "mask"], [Val.num 10, Val.num 20],
   [[Val.num 10, Val.str "A", Val.num 100, Val.na, Val.bool false],
    [Val.num 20, Val.str "B", Val.num 200, Val.num 2, Val.bool false]]⟩

/-- One-site, one-row production frame for the clipping filter. -/
def prodClipExample : Frame :=
  ⟨["sid", "pw"], [Val.num 0], [[Val.str "A", Val.num 5]]⟩

/-- Metadata with the single site A. -/
def metaClipExample : Frame := ⟨["msid"], [Val.num 0], [[Val.str "A"]]⟩

/-- Metadata for the clipping filter with zero site rows. -/
def metaClipEmpty : Frame := ⟨["msid"], [], []⟩

/-- A detector black box that never flags. -/
def geoNone : List Val → GeoParams → List Bool := fun _ _ => []

/-- A detector black box that never flags. -/
def levNone : List Val → LevParams → List Bool := fun _ _ => []

/-- A threshold detector black box whose mask records whether the
`slope_max` it received is the number 0. -/
def thrRevealing : List Val → ThrParams → List Bool :=
  fun ps p => ps.map (fun _ => p.slope_max = Val.num 0)

/-- Production frame whose single site A has no metadata counterpart. -/
def prodNormExample : Frame :=
  ⟨["sid", "en"], [Val.num 0], [[Val.str "A", Val.num 10]]⟩

/-- Metadata holding only site B (site A has no metadata row; B has no
production rows). -/
def metaNormExample : Frame :=
  ⟨["msid", "dc"], [Val.num 0], [[Val.str "B", Val.num 4]]⟩

/-- One production row whose `randid` and mapped site column are both A. -/
def prodSolarExample : Frame :=
  ⟨["randid", "sid"], [Val.num 0], [[Val.str "A", Val.str "A"]]⟩

/-- Metadata indexed by the single site B (no row for A). -/
def metaSolarExample : Frame :=
  ⟨["lon", "lat"], [Val.str "B"], [[Val.num 1, Val.num 2]]⟩

/-- A solar-position black box returning the constant value 7 in all six
positional fields at each timestamp. -/
def spaSix : List Val → Val → Val → List Row :=
  fun times _ _ => times.map (fun _ =>
    [Val.num 7, Val.num 7, Val.num 7, Val.num 7, Val.num 7, Val.num 7])

/-- Two production rows sharing `randid` A while the mapped site column
holds A and B; metadata has both A and B. -/
def prodSolarTwo : Frame :=
  ⟨["randid", "sid"], [Val.num 0, Val.num 1],
   [[Val.str "A", Val.str "A"], [Val.str "A", Val.str "B"]]⟩

/-- Metadata indexed by sites A and B. -/
def metaSolarTwo : Frame :=
  ⟨["lon", "lat"], [Val.str "A", Val.str "B"],
   [[Val.num 1, Val.num 2], [Val.num 3, Val.num 4]]⟩

/-! ## Closed evaluations settling and witnessing the claims -/

/-- Witness for claim C2: the cross-product index property instantiated on
the worked example dataset. -/
theorem C2_censoring_full_crossproduct_witness :
    censExample.index = crossProd (uniqueVals omExampleSiteVals) (uniqueVals omExampleGroupVals) ∧
    (∀ p : Val × Val, p ∈ censExample.index ↔
      p.1 ∈ uniqueVals omExampleSiteVals ∧ p.2 ∈ uniqueVals omExampleGroupVals) ∧
    censExample.index.Nodup :=
  C2_censoring_full_crossproduct omExample "grp" "sid" censExample
    omExampleSiteVals omExampleGroupVals (by decide) (by decide) (by decide) (by decide)

/-- Counterexample to claim C1 as stated: in `omNaExample` the pair (A, G)
is jointly observed and its first event row (row 0) is (A, G, NaN), yet the
output maps (A, G) to observation value 5 with was_observed true —
`groupby(...).first()` takes each column's first non-null value, not the
first row. -/
theorem C1_first_row_counterexample :
    (identify_right_censored_data omNaExample "grp" "sid").map
        (fun F => rowAt F (Val.str "A", Val.str "G")) =
      .ok (some [Val.num 5, Val.bool true]) ∧
    omNaExample.rows.headD [] = [Val.str "A", Val.str "G", Val.na] ∧
    some [Val.num 5, Val.bool true] ≠ some [Val.na, Val.bool true] := by
  refine ⟨by decide, by decide, by decide⟩

/-- Claim C3 evaluated at the failing input: with two sites A (latitude 1)
and B (latitude 2) holding one row each, and a clearsky collaborator whose
values equal the latitude of the site it was called for, the returned
clearsky column is [NaN, 2]: site A's row does not hold the value 1 derived
from its own location, because each per-site iteration assigns the entire
clearsky column (index-aligned), overwriting the previous sites' values. -/
theorem C3_per_site_clearsky_write :
    prodIrrCore tzConst csLatitude limitsFalse prodIrrExample "ts" "sid" "irr" "csirr"
        metaIrrExample "msid" "lat" "lon" "ghi" (11/10 : Rat)
      = .ok (C3Result, [false, false]) ∧
    cellAtD C3Result "csirr" 0 = Val.na ∧
    csLatitude (Val.num 1) (Val.num 11) (tzConst (Val.num 11) (Val.num 1)) [Val.num 10] "ghi"
      = [Val.num 1] ∧
    Val.na ≠ Val.num 1 := by
  refine ⟨by decide, by decide, by decide, by decide⟩

/-- Counterexample to claim C4 as stated: metadata's only site B has no
production rows, so per the claim the loop would range over {B}, skip it,
and succeed; instead `establish_solar_loc` iterates the production frame's
`randid` values {A} and fails looking up A in the metadata. -/
theorem C4_metadata_loop_counterexample :
    establish_solar_loc spaSix prodSolarExample "sid" metaSolarExample "lon" "lat"
      = .error (.lookupError (Val.str "A")) ∧
    Val.str "A" ∉ metaSolarExample.index ∧
    (∀ i ∈ metaSolarExample.index, maskEqCol prodSolarExample "sid" i = .ok [false]) := by
  refine ⟨by decide, by decide, by decide⟩

/-- Counterexample to claim C6 as stated: with metadata containing no
sites, `irradiance_type="poa"` does not fail — the check sits inside the
per-site loop, which never runs, and the call returns normally. -/
theorem C6_poa_no_sites_counterexample :
    (∃ F m, prod_irradiance_filter tzConst csLatitude limitsFalse prodIrrExample
        "ts" "sid" "irr" "csirr" metaEmptyExample "msid" "lat" "lon"
        true "poa" (11/10 : Rat) = .ok (F, m)) ∧
    metaEmptyExample.rows = [] := by
  refine ⟨⟨prodIrrExample, [false, false], by decide⟩, by decide⟩

/-- Counterexample to claim C7 as stated: the caller supplies
`slope_max = 0`, yet the threshold detector receives the default 0.0035:
the detector black box reports (through the mask) whether the `slope_max`
it received is 0, and the resulting mask cell is false. -/
theorem C7_falsy_kwarg_counterexample :
    (∃ F, prod_inverter_clipping_filter geoNone thrRevealing levNone prodClipExample
        "sid" "pw" metaClipExample "msid" "threshold" [("slope_max", Val.num 0)] = .ok F ∧
      cellAtD F "mask" 0 = Val.bool false) ∧
    thrRevealing [Val.num 5] ⟨Val.num 0, Val.num 1, Val.num 1, none⟩ = [true] ∧
    (resolveThreshold [("slope_max", Val.num 0)]).slope_max = Val.num (mkRat 7 2000) ∧
    Val.num (mkRat 7 2000) ≠ Val.num 0 := by
  refine ⟨⟨⟨["sid", "pw", "mask"], [Val.num 0], [[Val.str "A", Val.num 5, Val.bool false]]⟩,
    by decide, by decide⟩, by decide, by decide, by decide⟩

/-- Counterexample to claim C8 as stated: production site A has no
metadata row, yet `normalize_production_by_capacity` succeeds, silently
skipping site A and leaving its normalized cell unset (NaN). -/
theorem C8_silent_skip_counterexample :
    normalize_production_by_capacity prodNormExample "sid" "en" "norm"
        metaNormExample "msid" "dc"
      = .ok ⟨["sid", "en", "norm"], [Val.num 0],
          [[Val.str "A", Val.num 10, Val.na]]⟩ ∧
    getCol metaNormExample "msid" = .ok [Val.str "B"] ∧
    cellAtD prodNormExample "sid" 0 = Val.str "A" ∧
    Val.str "A" ≠ Val.str "B" := by
  refine ⟨by decide, by decide, by decide, by decide⟩

/-! ## Store lemmas and the non-mutation theorem -/

theorem read_alloc_of_lt (σ : Store) (f : Frame) (r : Nat) (h : r < σ.length) :
    (σ.alloc f).1.read r = σ.read r :=
  List.getD_append σ [f] _ r h

theorem read_write_of_ne (σ : Store) (f : Frame) (w r : Nat) (h : w ≠ r) :
    (σ.write w f).read r = σ.read r := by
  show (σ.set w f).getD r _ = σ.getD r _
  simp [List.getD, List.getElem?_set_ne h]

theorem alloc_length (σ : Store) (f : Frame) : (σ.alloc f).1.length = σ.length + 1 := by
  show (σ ++ [f]).length = σ.length + 1
  simp

theorem write_length (σ : Store) (f : Frame) (w : Nat) :
    (σ.write w f).length = σ.length := by
  show (σ.set w f).length = σ.length
  simp

theorem copy_write_frame_reads (σ : Store) (A B f : Frame) (r : Nat) (h : r < σ.length) :
    (((σ.alloc A).1.alloc B).1.write (σ.alloc A).2 f).read r = σ.read r := by
  rw [read_write_of_ne _ _ _ _ (by
      show σ.length ≠ r
      exact fun hc => absurd (hc ▸ h) (Nat.lt_irrefl _)),
    read_alloc_of_lt _ _ _ (by rw [alloc_length]; exact Nat.lt_succ_of_lt h),
    read_alloc_of_lt _ _ _ h]

theorem copy_frame_reads (σ : Store) (A B : Frame) (r : Nat) (h : r < σ.length) :
    ((σ.alloc A).1.alloc B).1.read r = σ.read r := by
  rw [read_alloc_of_lt _ _ _ (by rw [alloc_length]; exact Nat.lt_succ_of_lt h),
    read_alloc_of_lt _ _ _ h]

/-- Claim C9: for every operation (solar-position enrichment, capacity
normalization, clearsky filter, clipping filter, right-censoring
reconstruction) and every input, the caller-owned input frames are
unchanged after the call: every write targets only the freshly allocated
copies (or a freshly built result frame), never the caller's references. -/
theorem C9_callers_frames_unchanged :
    (∀ (spa : List Val → Val → Val → List Row) (σ : Store) (pr mr : Nat)
        (sC lonC latC : String), pr < σ.length → mr < σ.length →
      (establish_solar_loc_st spa σ pr sC mr lonC latC).1.read pr = σ.read pr ∧
      (establish_solar_loc_st spa σ pr sC mr lonC latC).1.read mr = σ.read mr) ∧
    (∀ (σ : Store) (pr mr : Nat) (sC eC oC msC dC : String),
        pr < σ.length → mr < σ.length →
      (normalize_production_by_capacity_st σ pr sC eC oC mr msC dC).1.read pr = σ.read pr ∧
      (normalize_production_by_capacity_st σ pr sC eC oC mr msC dC).1.read mr = σ.read mr) ∧
    (∀ (tz : Val → Val → Val) (cs : Val → Val → Val → List Val → String → List Val)
        (lim : List Val → List Val → Rat → List Bool) (σ : Store) (pr mr : Nat)
        (tC sC iC cC msC laC loC : String) (drop : Bool) (it : String) (csi : Rat),
        pr < σ.length → mr < σ.length →
      (prod_irradiance_filter_st tz cs lim σ pr tC sC iC cC mr msC laC loC drop it csi).1.read pr
          = σ.read pr ∧
      (prod_irradiance_filter_st tz cs lim σ pr tC sC iC cC mr msC laC loC drop it csi).1.read mr
          = σ.read mr) ∧
    (∀ (g : List Val → GeoParams → List Bool) (t : List Val → ThrParams → List Bool)
        (lv : List Val → LevParams → List Bool) (σ : Store) (pr mr : Nat)
        (sC pC msC model : String) (kwargs : List (String × Val)),
        pr < σ.length → mr < σ.length →
      (prod_inverter_clipping_filter_st g t lv σ pr sC pC mr msC model kwargs).1.read pr
          = σ.read pr ∧
      (prod_inverter_clipping_filter_st g t lv σ pr sC pC mr msC model kwargs).1.read mr
          = σ.read mr) ∧
    (∀ (σ : Store) (omRef : Nat) (gC sC : String), omRef < σ.length →
      (identify_right_censored_data_st σ omRef gC sC).1.read omRef = σ.read omRef) := by
  refine ⟨?_, ?_, ?_, ?_, ?_⟩
  · intro spa σ pr mr sC lonC latC hp hm
    unfold establish_solar_loc_st
    dsimp only
    cases establish_solar_loc spa (((σ.alloc (σ.read pr)).1.alloc
        ((σ.alloc (σ.read pr)).1.read mr)).1.read (σ.alloc (σ.read pr)).2) sC
        (((σ.alloc (σ.read pr)).1.alloc ((σ.alloc (σ.read pr)).1.read mr)).1.read
          ((σ.alloc (σ.read pr)).1.alloc ((σ.alloc (σ.read pr)).1.read mr)).2) lonC latC with
    | error e => exact ⟨copy_frame_reads σ _ _ pr hp, copy_frame_reads σ _ _ mr hm⟩
    | ok f => exact ⟨copy_write_frame_reads σ _ _ f pr hp, copy_write_frame_reads σ _ _ f mr hm⟩
  · intro σ pr mr sC eC oC msC dC hp hm
    unfold normalize_production_by_capacity_st
    dsimp only
    cases normalize_production_by_capacity (((σ.alloc (σ.read pr)).1.alloc
        ((σ.alloc (σ.read pr)).1.read mr)).1.read (σ.alloc (σ.read pr)).2) sC eC oC
        (((σ.alloc (σ.read pr)).1.alloc ((σ.alloc (σ.read pr)).1.read mr)).1.read
          ((σ.alloc (σ.read pr)).1.alloc ((σ.alloc (σ.read pr)).1.read mr)).2) msC dC with
    | error e => exact ⟨copy_frame_reads σ _ _ pr hp, copy_frame_reads σ _ _ mr hm⟩
    | ok f => exact ⟨copy_write_frame_reads σ _ _ f pr hp, copy_write_frame_reads σ _ _ f mr hm⟩
  · intro tz cs lim σ pr mr tC sC iC cC msC laC loC drop it csi hp hm
    unfold prod_irradiance_filter_st
    dsimp only
    cases prodIrrCore tz cs lim (((σ.alloc (σ.read pr)).1.alloc
        ((σ.alloc (σ.read pr)).1.read mr)).1.read (σ.alloc (σ.read pr)).2) tC sC iC cC
        (((σ.alloc (σ.read pr)).1.alloc ((σ.alloc (σ.read pr)).1.read mr)).1.read
          ((σ.alloc (σ.read pr)).1.alloc ((σ.alloc (σ.read pr)).1.read mr)).2)
        msC laC loC it csi with
    | error e => exact ⟨copy_frame_reads σ _ _ pr hp, copy_frame_reads σ _ _ mr hm⟩
    | ok fm =>
      dsimp only
      cases drop with
      | false =>
        rw [if_pos (by decide : ¬ false = true)]
        exact ⟨copy_write_frame_reads σ _ _ fm.1 pr hp,
          copy_write_frame_reads σ _ _ fm.1 mr hm⟩
      | true =>
        rw [if_neg (by decide : ¬ ¬ true = true)]
        cases (do
            let keep ← maskEqCol fm.1 "mask" (Val.bool false)
            dropColE (filterRowsByMask fm.1 keep) "mask" : Except PErr Frame) with
        | error e =>
          exact ⟨copy_write_frame_reads σ _ _ fm.1 pr hp,
            copy_write_frame_reads σ _ _ fm.1 mr hm⟩
        | ok f2 =>
          refine ⟨?_, ?_⟩
          · rw [read_alloc_of_lt _ _ _ (by
                rw [write_length, alloc_length, alloc_length]
                exact Nat.lt_succ_of_lt (Nat.lt_succ_of_lt hp))]
            exact copy_write_frame_reads σ _ _ fm.1 pr hp
          · rw [read_alloc_of_lt _ _ _ (by
                rw [write_length, alloc_length, alloc_length]
                exact Nat.lt_succ_of_lt (Nat.lt_succ_of_lt hm))]
            exact copy_write_frame_reads σ _ _ fm.1 mr hm
  · intro g t lv σ pr mr sC pC msC model kwargs hp hm
    unfold prod_inverter_clipping_filter_st
    dsimp only
    cases prod_inverter_clipping_filter g t lv (((σ.alloc (σ.read pr)).1.alloc
        ((σ.alloc (σ.read pr)).1.read mr)).1.read (σ.alloc (σ.read pr)).2) sC pC
        (((σ.alloc (σ.read pr)).1.alloc ((σ.alloc (σ.read pr)).1.read mr)).1.read
          ((σ.alloc (σ.read pr)).1.alloc ((σ.alloc (σ.read pr)).1.read mr)).2)
        msC model kwargs with
    | error e => exact ⟨copy_frame_reads σ _ _ pr hp, copy_frame_reads σ _ _ mr hm⟩
    | ok f => exact ⟨copy_write_frame_reads σ _ _ f pr hp, copy_write_frame_reads σ _ _ f mr hm⟩
  · intro σ omRef gC sC _
    rfl

/-- Witness for claim C9: a two-frame store, references 0 and 1. -/
theorem C9_callers_frames_unchanged_witness :
    (establish_solar_loc_st spaSix [prodSolarExample, metaSolarExample] 0 "sid" 1
        "lon" "lat").1.read 0 = Store.read [prodSolarExample, metaSolarExample] 0 ∧
    (normalize_production_by_capacity_st [prodNormExample, metaNormExample] 0 "sid" "en"
        "norm" 1 "msid" "dc").1.read 1 = Store.read [prodNormExample, metaNormExample] 1 ∧
    (identify_right_censored_data_st [omExample] 0 "grp" "sid").1.read 0
        = Store.read [omExample] 0 := by
  refine ⟨(C9_callers_frames_unchanged.1 spaSix [prodSolarExample, metaSolarExample] 0 1
      "sid" "lon" "lat" (by decide) (by decide)).1,
    (C9_callers_frames_unchanged.2.1 [prodNormExample, metaNormExample] 0 1 "sid" "en"
      "norm" "msid" "dc" (by decide) (by decide)).2,
    C9_callers_frames_unchanged.2.2.2.2 [omExample] 0 "grp" "sid" (by decide)⟩

/-! ## Column-access lemmas -/

theorem findIdx_of_mem (c : String) :
    ∀ (l : List String), c ∈ l → ∃ i, colIdxAux c l = some i := by
  intro l
  induction l with
  | nil => intro h; exact absurd h (List.not_mem_nil c)
  | cons x t ih =>
    intro h
    by_cases hx : x = c
    · exact ⟨0, by simp [colIdxAux, hx]⟩
    · rcases List.mem_cons.1 h with rfl | ht
      · exact absurd rfl hx
      · rcases ih ht with ⟨i, hi⟩
        refine ⟨i + 1, ?_⟩
        rw [colIdxAux, if_neg hx, hi]
        rfl

theorem colIdx_isSome_of_mem (f : Frame) (c : String) (h : c ∈ f.cols) :
    ∃ i, colIdx f c = some i :=
  findIdx_of_mem c f.cols h

theorem getCol_ok_of_mem (f : Frame) (c : String) (h : c ∈ f.cols) :
    ∃ vals, getCol f c = .ok vals ∧ vals.length = f.rows.length := by
  rcases colIdx_isSome_of_mem f c h with ⟨i, hi⟩
  exact ⟨f.rows.map (fun r => r.getD i Val.na), by rw [getCol, hi], by simp⟩

theorem maskEqCol_ok (f : Frame) (c : String) (v : Val) (vals : List Val)
    (h : getCol f c = .ok vals) :
    maskEqCol f c v = .ok (vals.map (fun x => decide (x = v))) := by
  unfold maskEqCol
  rw [h]
  rfl

theorem locMaskGetCol_ok (f : Frame) (m : List Bool) (c : String) (vals : List Val)
    (h : getCol f c = .ok vals) :
    locMaskGetCol f m c =
      .ok ((vals.zip m).filterMap (fun p => if p.2 then some p.1 else none)) := by
  unfold locMaskGetCol
  rw [h]
  rfl

theorem filterMasked_ne_nil {α : Type} :
    ∀ (a : List α) (m : List Bool), a.length = m.length → true ∈ m →
      (a.zip m).filterMap (fun p => if p.2 then some p.1 else none) ≠ [] := by
  intro a
  induction a with
  | nil =>
    intro m hlen hm
    cases m with
    | nil => exact absurd hm (List.not_mem_nil true)
    | cons b bs => exact absurd hlen (by simp)
  | cons x xs ih =>
    intro m hlen hm
    cases m with
    | nil => exact absurd hm (List.not_mem_nil true)
    | cons b bs =>
      cases b with
      | true => simp [List.zip_cons_cons]
      | false =>
        have hm2 : true ∈ bs := by
          rcases List.mem_cons.1 hm with h | h
          · exact absurd h.symm (by simp)
          · exact h
        rw [List.zip_cons_cons, List.filterMap_cons_none (by rfl)]
        exact ih bs (by simpa using hlen) hm2

theorem filterMasked_nil {α : Type} :
    ∀ (a : List α) (m : List Bool), (∀ b ∈ m, b = false) →
      (a.zip m).filterMap (fun p => if p.2 then some p.1 else none) = [] := by
  intro a
  induction a with
  | nil => intro m _; simp
  | cons x xs ih =>
    intro m hm
    cases m with
    | nil => simp
    | cons b bs =>
      have hb : b = false := hm b (List.mem_cons_self b bs)
      subst hb
      rw [List.zip_cons_cons, List.filterMap_cons_none (by rfl)]
      exact ih bs (fun b hb2 => hm b (List.mem_cons_of_mem _ hb2))

theorem mem_pySet (a : Val) (l : List Val) : a ∈ pySet l ↔ a ∈ l := mem_uniqueVals a l

theorem pySet_ne_nil (l : List Val) (h : l ≠ []) : pySet l ≠ [] := by
  cases l with
  | nil => exact absurd rfl h
  | cons x t =>
    intro hc
    have : x ∈ pySet (x :: t) := (mem_pySet x (x :: t)).2 (List.mem_cons_self x t)
    rw [hc] at this
    exact absurd this (List.not_mem_nil x)

theorem ilocFirst_ok_of_ne_nil (l : List Val) (h : l ≠ []) : ∃ v, ilocFirst l = .ok v := by
  cases l with
  | nil => exact absurd rfl h
  | cons x t => exact ⟨x, rfl⟩

theorem getCol_length (f : Frame) (c : String) (vals : List Val)
    (h : getCol f c = .ok vals) : vals.length = f.rows.length := by
  rcases getCol_colIdx f c vals h with ⟨i, _, hv⟩
  rw [hv]
  simp

theorem ok_bind {α β : Type} (a : α) (f : α → Except PErr β) :
    (Except.ok a >>= f) = f a := rfl

theorem err_bind {α β : Type} (e : PErr) (f : α → Except PErr β) :
    ((Except.error e : Except PErr α) >>= f) = .error e := rfl

theorem irrStep_invalid_type
    (tz : Val → Val → Val) (cs : Val → Val → Val → List Val → String → List Val)
    (meta : Frame) (tsC sC csC msC latC lonC it : String) (acc : Frame) (site : Val)
    (mvals : List Val)
    (hm : getCol meta msC = .ok mvals) (hsite : site ∈ mvals)
    (hlat : latC ∈ meta.cols) (hlon : lonC ∈ meta.cols)
    (hts : tsC ∈ acc.cols) (hsC : sC ∈ acc.cols)
    (h1 : it ≠ "dni") (h2 : it ≠ "ghi") (h3 : it ≠ "dhi") :
    ∃ msg, irrStep tz cs meta tsC sC csC msC latC lonC it acc site
      = .error (.valueError msg) := by
  have htrue : true ∈ mvals.map (fun x => decide (x = site)) :=
    List.mem_map.2 ⟨site, hsite, by simp⟩
  rcases getCol_ok_of_mem acc sC hsC with ⟨svals, hsv, _⟩
  rcases getCol_ok_of_mem acc tsC hts with ⟨tvals, htv, _⟩
  rcases getCol_ok_of_mem meta latC hlat with ⟨lavals, hlav, hlalen⟩
  rcases getCol_ok_of_mem meta lonC hlon with ⟨lovals, hlov, hlolen⟩
  have hmlen : mvals.length = meta.rows.length := getCol_length meta msC mvals hm
  have hlats := filterMasked_ne_nil lavals (mvals.map (fun x => decide (x = site)))
    (by rw [hlalen, List.length_map, hmlen]) htrue
  have hlons := filterMasked_ne_nil lovals (mvals.map (fun x => decide (x = site)))
    (by rw [hlolen, List.length_map, hmlen]) htrue
  rcases ilocFirst_ok_of_ne_nil _ hlats with ⟨lat, hlatv⟩
  rcases ilocFirst_ok_of_ne_nil _ hlons with ⟨lon, hlonv⟩
  unfold irrStep
  rw [maskEqCol_ok meta msC site mvals hm, ok_bind,
    maskEqCol_ok acc sC site svals hsv, ok_bind,
    locMaskGetCol_ok acc _ tsC tvals htv, ok_bind,
    locMaskGetCol_ok meta _ latC lavals hlav, ok_bind, hlatv, ok_bind,
    locMaskGetCol_ok meta _ lonC lovals hlov, ok_bind, hlonv, ok_bind]
  by_cases hp : it = "poa"
  · rw [if_pos hp]
    exact ⟨"POA is currently not configured", rfl⟩
  · rw [if_neg hp, if_neg (by
      rintro (h | h | h)
      · exact h1 h
      · exact h2 h
      · exact h3 h)]
    exact ⟨"Incorrect value passed to irradiance_type", rfl⟩

theorem clipStep_empty_slice
    (g : List Val → GeoParams → List Bool) (t : List Val → ThrParams → List Bool)
    (lv : List Val → LevParams → List Bool) (sC pC model : String)
    (kwargs : List (String × Val)) (acc : Frame) (site : Val) (svals : List Val)
    (hsv : getCol acc sC = .ok svals) (hpC : pC ∈ acc.cols)
    (hnot : site ∉ svals) :
    clipStep g t lv sC pC model kwargs acc site = .ok acc := by
  rcases getCol_ok_of_mem acc pC hpC with ⟨pvals, hpv, _⟩
  unfold clipStep
  rw [maskEqCol_ok acc sC site svals hsv, ok_bind,
    locMaskGetCol_ok acc _ pC pvals hpv, ok_bind,
    filterMasked_nil pvals (svals.map (fun x => decide (x = site))) (by
      intro b hb
      rcases List.mem_map.1 hb with ⟨v, hv, rfl⟩
      simp only [decide_eq_false_iff_not]
      rintro rfl
      exact hnot hv)]
  rfl

theorem clipStep_invalid_model
    (g : List Val → GeoParams → List Bool) (t : List Val → ThrParams → List Bool)
    (lv : List Val → LevParams → List Bool) (sC pC model : String)
    (kwargs : List (String × Val)) (acc : Frame) (site : Val) (svals : List Val)
    (hsv : getCol acc sC = .ok svals) (hpC : pC ∈ acc.cols)
    (hsite : site ∈ svals)
    (h1 : model ≠ "geometric") (h2 : model ≠ "threshold") (h3 : model ≠ "levels") :
    clipStep g t lv sC pC model kwargs acc site
      = .error (.valueError "Invalid value passed to parameter calculation") := by
  rcases getCol_ok_of_mem acc pC hpC with ⟨pvals, hpv, hplen⟩
  have hne := filterMasked_ne_nil pvals (svals.map (fun x => decide (x = site)))
    (by rw [hplen, List.length_map, getCol_length acc sC svals hsv])
    (List.mem_map.2 ⟨site, hsite, by simp⟩)
  unfold clipStep
  rw [maskEqCol_ok acc sC site svals hsv, ok_bind,
    locMaskGetCol_ok acc _ pC pvals hpv, ok_bind,
    if_neg (fun hc => hne (List.length_eq_zero.1 hc)),
    if_neg h1, if_neg h2, if_neg h3]
  rfl

/-- Amended claim C6: the enumerated-option checks happen inside the
per-site loops.  For the clearsky filter, an `irradiance_type` outside
{ghi, dni, dhi} (poa included) raises a ValueError as soon as the first
metadata site is processed — so whenever the metadata has at least one
site row and the looked-up columns exist; for the clipping filter, an
unknown `model` raises a ValueError as soon as some metadata site with a
non-empty power slice is reached.  With no metadata sites (either filter),
or with every metadata site's power slice empty (clipping filter), the
check is never executed and the call can return normally (see the
counterexample). -/
theorem C6_invalid_option_errors_in_loop :
    (∀ (tz : Val → Val → Val) (cs : Val → Val → Val → List Val → String → List Val)
        (lim : List Val → List Val → Rat → List Bool) (prod : Frame)
        (tsC sC irrC csC : String) (meta : Frame) (msC latC lonC : String)
        (drop : Bool) (it : String) (csi : Rat) (mvals : List Val),
      getCol meta msC = .ok mvals → mvals ≠ [] →
      latC ∈ meta.cols → lonC ∈ meta.cols → tsC ∈ prod.cols → sC ∈ prod.cols →
      it ≠ "dni" → it ≠ "ghi" → it ≠ "dhi" →
      ∃ msg, prod_irradiance_filter tz cs lim prod tsC sC irrC csC meta msC latC lonC
        drop it csi = .error (.valueError msg)) ∧
    (∀ (g : List Val → GeoParams → List Bool) (t : List Val → ThrParams → List Bool)
        (lv : List Val → LevParams → List Bool) (prod : Frame) (sC pC : String)
        (meta : Frame) (msC model : String) (kwargs : List (String × Val))
        (mvals svals : List Val),
      getCol meta msC = .ok mvals → getCol prod sC = .ok svals → pC ∈ prod.cols →
      model ≠ "geometric" → model ≠ "threshold" → model ≠ "levels" →
      (∃ s, s ∈ mvals ∧ s ∈ svals) →
      prod_inverter_clipping_filter g t lv prod sC pC meta msC model kwargs
        = .error (.valueError "Invalid value passed to parameter calculation")) := by
  constructor
  · intro tz cs lim prod tsC sC irrC csC meta msC latC lonC drop it csi mvals
      hm hne hlat hlon hts hsC h1 h2 h3
    cases hsites : pySet mvals with
    | nil => exact absurd hsites (pySet_ne_nil mvals hne)
    | cons s0 rest =>
      have hs0 : s0 ∈ mvals := by
        rw [← mem_pySet, hsites]
        exact List.mem_cons_self s0 rest
      rcases irrStep_invalid_type tz cs meta tsC sC csC msC latC lonC it prod s0 mvals
        hm hs0 hlat hlon hts hsC h1 h2 h3 with ⟨msg, hstep⟩
      refine ⟨msg, ?_⟩
      unfold prod_irradiance_filter prodIrrCore
      rw [hm, ok_bind, hsites, List.foldlM_cons, hstep, err_bind, err_bind, err_bind]
  · intro g t lv prod sC pC meta msC model kwargs mvals svals hm hsv hpC h1 h2 h3 hex
    rcases hex with ⟨s, hsm, hss⟩
    have herr := foldlM_err_of (fun acc => acc = prod) (fun s => s ∈ svals)
      (fun e => e = .valueError "Invalid value passed to parameter calculation")
      (clipStep g t lv sC pC model kwargs) (pySet mvals) prod rfl
      ⟨s, (mem_pySet s mvals).2 hsm, hss⟩
      (fun acc a _ hP hq =>
        ⟨prod, by
          rw [hP]
          exact clipStep_empty_slice g t lv sC pC model kwargs prod a svals hsv hpC hq, rfl⟩)
      (fun acc a _ hP hq =>
        ⟨.valueError "Invalid value passed to parameter calculation", by
          rw [hP]
          exact clipStep_invalid_model g t lv sC pC model kwargs prod a svals hsv hpC
            hq h1 h2 h3, rfl⟩)
    rcases herr with ⟨e, hfold, he⟩
    unfold prod_inverter_clipping_filter
    rw [hm, ok_bind, hfold, he]

/-- Witness for the amended claim C6 at concrete inputs: one metadata site
with required columns makes `irradiance_type="xyz"` fail, and a metadata
site with production rows makes `model="bogus"` fail. -/
theorem C6_invalid_option_errors_in_loop_witness :
    (∃ msg, prod_irradiance_filter tzConst csLatitude limitsFalse prodIrrExample
      "ts" "sid" "irr" "csirr" metaIrrExample "msid" "lat" "lon" true "xyz" (11/10 : Rat)
      = .error (.valueError msg)) ∧
    prod_inverter_clipping_filter geoNone thrRevealing levNone prodClipExample
      "sid" "pw" metaClipExample "msid" "bogus" []
      = .error (.valueError "Invalid value passed to parameter calculation") := by
  constructor
  · exact C6_invalid_option_errors_in_loop.1 tzConst csLatitude limitsFalse prodIrrExample
      "ts" "sid" "irr" "csirr" metaIrrExample "msid" "lat" "lon" true "xyz" (11/10 : Rat)
      [Val.str "A", Val.str "B"] (by decide) (by decide) (by decide) (by decide)
      (by decide) (by decide) (by decide) (by decide) (by decide)
  · exact C6_invalid_option_errors_in_loop.2 geoNone thrRevealing levNone prodClipExample
      "sid" "pw" metaClipExample "msid" "bogus" [] [Val.str "A"] [Val.str "A"]
      (by decide) (by decide) (by decide) (by decide) (by decide) (by decide)
      ⟨Val.str "A", by decide, by decide⟩

/-- A resolved clipping parameter follows the source's `kwargs.get(k) or d`
idiom: a supplied truthy value is passed through; a supplied falsy value or
an absent key yields the default `d`. -/
def ResolvesWithDefault (getp : List (String × Val) → Val) (key : String) (d : Val) : Prop :=
  ∀ kw, (∀ v, kwGet kw key = some v →
      ((truthy v = true → getp kw = v) ∧ (truthy v = false → getp kw = d))) ∧
    (kwGet kw key = none → getp kw = d)

theorem pyOr_resolves (key : String) (d : Val) :
    ResolvesWithDefault (fun kw => pyOr (kwGet kw key) d) key d := by
  intro kw
  constructor
  · intro v hv
    constructor
    · intro ht
      simp only [pyOr, hv, ht, if_true]
    · intro hf
      simp only [pyOr, hv, hf]
      rfl
  · intro hv
    simp only [pyOr, hv]

/-- Amended claim C7: for every clipping model and parameter, a
caller-supplied TRUTHY value is handed to the external detector unchanged,
but a falsy supplied value (0, 0.0, False, empty string) is replaced by the
documented default exactly as if the parameter were unspecified — the
source resolves each parameter with `kwargs.get(k) or default`; `window`
and `freq` of the geometric model and `freq` of the threshold model are
passed through as supplied (or None) with no default.  End to end, the
detector receives the power slice and the so-resolved record. -/
theorem C7_falsy_kwargs_take_defaults :
    ResolvesWithDefault (fun kw => (resolveGeometric kw).slope_max) "slope_max"
      (Val.num (mkRat 1 5)) ∧
    ResolvesWithDefault (fun kw => (resolveGeometric kw).tracking) "tracking"
      (Val.bool false) ∧
    (∀ kw, (resolveGeometric kw).window = kwGet kw "window") ∧
    (∀ kw, (resolveGeometric kw).freq = kwGet kw "freq") ∧
    ResolvesWithDefault (fun kw => (resolveThreshold kw).slope_max) "slope_max"
      (Val.num (mkRat 7 2000)) ∧
    ResolvesWithDefault (fun kw => (resolveThreshold kw).power_min) "power_min"
      (Val.num (mkRat 3 4)) ∧
    ResolvesWithDefault (fun kw => (resolveThreshold kw).power_quantile) "power_quantile"
      (Val.num (mkRat 199 200)) ∧
    (∀ kw, (resolveThreshold kw).freq = kwGet kw "freq") ∧
    ResolvesWithDefault (fun kw => (resolveLevels kw).window) "window" (Val.num 4) ∧
    ResolvesWithDefault (fun kw => (resolveLevels kw).fraction_in_window)
      "fraction_in_window" (Val.num (mkRat 3 4)) ∧
    ResolvesWithDefault (fun kw => (resolveLevels kw).rtol) "rtol" (Val.num (mkRat 1 200)) ∧
    ResolvesWithDefault (fun kw => (resolveLevels kw).levels) "levels" (Val.num 2) ∧
    (∀ (t : List Val → ThrParams → List Bool) (kw : List (String × Val)),
      (∀ ps p, (t ps p).length = ps.length) →
      ∃ F, prod_inverter_clipping_filter geoNone t levNone prodClipExample "sid" "pw"
          metaClipExample "msid" "threshold" kw = .ok F ∧
        getCol F "mask" = .ok ((t [Val.num 5] (resolveThreshold kw)).map Val.bool)) := by
  refine ⟨pyOr_resolves "slope_max" (Val.num (mkRat 1 5)),
    pyOr_resolves "tracking" (Val.bool false),
    fun kw => rfl, fun kw => rfl,
    pyOr_resolves "slope_max" (Val.num (mkRat 7 2000)),
    pyOr_resolves "power_min" (Val.num (mkRat 3 4)),
    pyOr_resolves "power_quantile" (Val.num (mkRat 199 200)),
    fun kw => rfl,
    pyOr_resolves "window" (Val.num 4),
    pyOr_resolves "fraction_in_window" (Val.num (mkRat 3 4)),
    pyOr_resolves "rtol" (Val.num (mkRat 1 200)),
    pyOr_resolves "levels" (Val.num 2),
    ?_⟩
  intro t kw hlen
  obtain ⟨b, hb⟩ := List.length_eq_one.1 (hlen [Val.num 5] (resolveThreshold kw))
  refine ⟨locMaskSetCol prodClipExample [true] "mask"
    ((t [Val.num 5] (resolveThreshold kw)).map Val.bool), rfl, ?_⟩
  rw [hb]
  rfl

/-- Witness for the amended claim C7: a truthy supplied `slope_max` is
passed through, an absent one yields the 0.0035 default, and the
end-to-end conjunct instantiated with the revealing detector. -/
theorem C7_falsy_kwargs_take_defaults_witness :
    (resolveThreshold [("slope_max", Val.num 3)]).slope_max = Val.num 3 ∧
    (resolveThreshold []).slope_max = Val.num (mkRat 7 2000) ∧
    (∃ F, prod_inverter_clipping_filter geoNone thrRevealing levNone prodClipExample
        "sid" "pw" metaClipExample "msid" "threshold" [] = .ok F ∧
      getCol F "mask" = .ok ((thrRevealing [Val.num 5] (resolveThreshold [])).map Val.bool)) := by
  refine ⟨((C7_falsy_kwargs_take_defaults.2.2.2.2.1 [("slope_max", Val.num 3)]).1
      (Val.num 3) (by decide)).1 (by decide),
    (C7_falsy_kwargs_take_defaults.2.2.2.2.1 []).2 (by decide),
    C7_falsy_kwargs_take_defaults.2.2.2.2.2.2.2.2.2.2.2.2 thrRevealing []
      (fun ps p => by simp [thrRevealing])⟩

theorem colIdxAux_eq_none (c : String) :
    ∀ (l : List String), c ∉ l → colIdxAux c l = none := by
  intro l
  induction l with
  | nil => intro _; rfl
  | cons x t ih =>
    intro h
    have hx : ¬ x = c := fun hc => h (hc ▸ List.mem_cons_self x t)
    rw [colIdxAux, if_neg hx, ih (fun hc => h (List.mem_cons_of_mem x hc))]
    rfl

theorem getCol_err_of_not_mem (f : Frame) (c : String) (h : c ∉ f.cols) :
    getCol f c = .error (.keyError c) := by
  unfold getCol colIdx
  rw [colIdxAux_eq_none c f.cols h]

/-- Claim C10: `establish_solar_loc` derives the iterated site set from the
literal column name 'randid'.  Part one: any production frame without a
'randid' column makes the call fail with the 'randid' KeyError, whatever
the siteid mapping or the metadata.  Part two (concrete discrimination):
with randid values {A, A} but mapped site column values [A, B] and
metadata for both A and B, only the pair (randid-unique A, mask sid == A)
is processed — row 0 receives the six positional values while row 1 stays
NaN, although site B has metadata. -/
theorem C10_randid_drives_site_set :
    (∀ (spa : List Val → Val → Val → List Row) (prod : Frame) (sC : String)
        (meta : Frame) (lonC latC : String), "randid" ∉ prod.cols →
      establish_solar_loc spa prod sC meta lonC latC = .error (.keyError "randid")) ∧
    (getCol prodSolarTwo "randid" = .ok [Val.str "A", Val.str "A"] ∧
     getCol prodSolarTwo "sid" = .ok [Val.str "A", Val.str "B"] ∧
     Val.str "B" ∈ metaSolarTwo.index ∧
     establish_solar_loc spaSix prodSolarTwo "sid" metaSolarTwo "lon" "lat"
       = .ok ⟨["randid", "sid", "apparent_zenith", "zenith", "apparent_elevation",
               "elevation", "azimuth", "equation_of_time"],
              [Val.num 0, Val.num 1],
              [[Val.str "A", Val.str "A", Val.num 7, Val.num 7, Val.num 7, Val.num 7,
                Val.num 7, Val.num 7],
               [Val.str "A", Val.str "B", Val.na, Val.na, Val.na, Val.na,
                Val.na, Val.na]]⟩) := by
  constructor
  · intro spa prod sC meta lonC latC h
    unfold establish_solar_loc
    rw [getCol_err_of_not_mem prod "randid" h]
    rfl
  · exact ⟨by decide, by decide, by decide, by decide⟩

/-- Witness for claim C10: a production frame with columns sid and pw only
(no 'randid') fails with the randid KeyError even though the mapped site
column exists. -/
theorem C10_randid_drives_site_set_witness :
    establish_solar_loc spaSix prodClipExample "sid" metaSolarTwo "lon" "lat"
      = .error (.keyError "randid") :=
  C10_randid_drives_site_set.1 spaSix prodClipExample "sid" metaSolarTwo "lon" "lat"
    (by decide)

/-! ## Lemmas about masked column writes -/

/-- Every row has exactly one cell per column label. -/
def WFrows (f : Frame) : Prop := ∀ r ∈ f.rows, r.length = f.cols.length

theorem getD_set_ne_val (r : Row) (k j : Nat) (v d : Val) (h : k ≠ j) :
    (r.set k v).getD j d = r.getD j d := by
  simp [List.getD, List.getElem?_set_ne h]

theorem getD_append_na (r : Row) : ∀ (j : Nat), (r ++ [Val.na]).getD j Val.na = r.getD j Val.na := by
  induction r with
  | nil =>
    intro j
    cases j with
    | zero => rfl
    | succ n => cases n <;> rfl
  | cons x t ih =>
    intro j
    cases j with
    | zero => rfl
    | succ n =>
      show (t ++ [Val.na]).getD n Val.na = t.getD n Val.na
      exact ih n

theorem setMaskedAt_length (k : Nat) :
    ∀ (rows : List Row) (m : List Bool) (vals : List Val),
      (setMaskedAt k rows m vals).length = rows.length := by
  intro rows
  induction rows with
  | nil => intro m vals; rfl
  | cons r rs ih =>
    intro m vals
    cases m with
    | nil => rfl
    | cons b ms =>
      cases b with
      | true => simp [setMaskedAt, ih]
      | false => simp [setMaskedAt, ih]

theorem setMaskedAt_row_of_false (k : Nat) :
    ∀ (rows : List Row) (m : List Bool) (vals : List Val) (i : Nat),
      m.getD i false = false →
      (setMaskedAt k rows m vals).getD i [] = rows.getD i [] := by
  intro rows
  induction rows with
  | nil => intro m vals i _; rfl
  | cons r rs ih =>
    intro m vals i hm
    cases m with
    | nil => rfl
    | cons b ms =>
      cases b with
      | true =>
        cases i with
        | zero => exact absurd hm (by simp)
        | succ n =>
          show (setMaskedAt k rs ms vals.tail).getD n [] = rs.getD n []
          exact ih ms vals.tail n hm
      | false =>
        cases i with
        | zero => rfl
        | succ n =>
          show (setMaskedAt k rs ms vals).getD n [] = rs.getD n []
          exact ih ms vals n hm

theorem setMaskedAt_getD_ne (k j : Nat) (hkj : k ≠ j) :
    ∀ (rows : List Row) (m : List Bool) (vals : List Val),
      (setMaskedAt k rows m vals).map (fun r => r.getD j Val.na)
        = rows.map (fun r => r.getD j Val.na) := by
  intro rows
  induction rows with
  | nil => intro m vals; rfl
  | cons r rs ih =>
    intro m vals
    cases m with
    | nil => rfl
    | cons b ms =>
      cases b with
      | true =>
        show (r.set k _).getD j Val.na :: _ = r.getD j Val.na :: _
        rw [getD_set_ne_val r k j _ Val.na hkj, ih ms vals.tail]
      | false =>
        show r.getD j Val.na :: _ = r.getD j Val.na :: _
        rw [ih ms vals]

theorem colIdxAux_getD (c : String) :
    ∀ (l : List String) (k : Nat), colIdxAux c l = some k → l.getD k "" = c := by
  intro l
  induction l with
  | nil => intro k h; exact absurd h (by simp [colIdxAux])
  | cons x t ih =>
    intro k h
    by_cases hx : x = c
    · rw [colIdxAux, if_pos hx] at h
      cases h
      exact hx
    · rw [colIdxAux, if_neg hx] at h
      cases hk : colIdxAux c t with
      | none => rw [hk] at h; exact absurd h (by simp)
      | some i =>
        rw [hk] at h
        cases h
        exact ih i hk

theorem colIdxAux_append_of_some (c : String) :
    ∀ (l l2 : List String) (k : Nat), colIdxAux c l = some k →
      colIdxAux c (l ++ l2) = some k := by
  intro l
  induction l with
  | nil => intro l2 k h; exact absurd h (by simp [colIdxAux])
  | cons x t ih =>
    intro l2 k h
    by_cases hx : x = c
    · rw [colIdxAux, if_pos hx] at h
      cases h
      show colIdxAux c (x :: (t ++ l2)) = some 0
      rw [colIdxAux, if_pos hx]
    · rw [colIdxAux, if_neg hx] at h
      cases hk : colIdxAux c t with
      | none => rw [hk] at h; exact absurd h (by simp)
      | some i =>
        rw [hk] at h
        cases h
        show colIdxAux c (x :: (t ++ l2)) = some (i + 1)
        rw [colIdxAux, if_neg hx, ih l2 i hk]
        rfl

theorem mask_getD_false (s : Val) :
    ∀ (l : List Val) (i : Nat), l.getD i Val.na ≠ s →
      (l.map (fun x => decide (x = s))).getD i false = false := by
  intro l
  induction l with
  | nil => intro i _; rfl
  | cons x t ih =>
    intro i h
    cases i with
    | zero => simpa using h
    | succ n =>
      show (t.map (fun x => decide (x = s))).getD n false = false
      exact ih n h

theorem ensureCol_cols (f : Frame) (c : String) :
    (ensureCol f c).1.cols = f.cols ∨ (ensureCol f c).1.cols = f.cols ++ [c] := by
  unfold ensureCol
  cases colIdx f c with
  | some i => exact Or.inl rfl
  | none => exact Or.inr rfl

theorem colIdxAux_lt_length (c : String) :
    ∀ (l : List String) (k : Nat), colIdxAux c l = some k → k < l.length := by
  intro l
  induction l with
  | nil => intro k h; exact absurd h (by simp [colIdxAux])
  | cons x t ih =>
    intro k h
    by_cases hx : x = c
    · rw [colIdxAux, if_pos hx] at h
      cases h
      simp
    · rw [colIdxAux, if_neg hx] at h
      cases hk : colIdxAux c t with
      | none => rw [hk] at h; exact absurd h (by simp)
      | some i =>
        rw [hk] at h
        cases h
        have := ih i hk
        simpa using Nat.succ_lt_succ this

theorem getCol_locMaskSetCol_ne (f : Frame) (m : List Bool) (c c2 : String)
    (vals : List Val) (h : c2 ≠ c) :
    getCol (locMaskSetCol f m c vals) c2 = getCol f c2 := by
  unfold locMaskSetCol ensureCol
  cases hk : colIdx f c with
  | some k =>
    show getCol ⟨f.cols, f.index, setMaskedAt k f.rows m vals⟩ c2 = getCol f c2
    unfold getCol colIdx
    cases hj : colIdxAux c2 f.cols with
    | none => rfl
    | some j =>
      have hkj : k ≠ j := by
        intro hc
        subst hc
        exact h ((colIdxAux_getD c2 f.cols k hj).symm.trans (colIdxAux_getD c f.cols k hk))
      show Except.ok ((setMaskedAt k f.rows m vals).map (fun r => r.getD j Val.na))
        = Except.ok (f.rows.map (fun r => r.getD j Val.na))
      rw [setMaskedAt_getD_ne k j hkj f.rows m vals]
  | none =>
    show getCol ⟨f.cols ++ [c], f.index,
      setMaskedAt f.cols.length (f.rows.map (fun r => r ++ [Val.na])) m vals⟩ c2 = getCol f c2
    unfold getCol colIdx
    cases hj : colIdxAux c2 f.cols with
    | none =>
      have : colIdxAux c2 (f.cols ++ [c]) = none := by
        have hnm : c2 ∉ f.cols ++ [c] := by
          intro hmem
          rcases List.mem_append.1 hmem with hm1 | hm2
          · rcases colIdx_isSome_of_mem ⟨f.cols, [], []⟩ c2 hm1 with ⟨i, hi⟩
            rw [show colIdx ⟨f.cols, [], []⟩ c2 = colIdxAux c2 f.cols from rfl] at hi
            rw [hi] at hj
            exact absurd hj (by simp)
          · simp only [List.mem_singleton] at hm2
            exact h hm2
        exact colIdxAux_eq_none c2 _ hnm
      rw [this]
    | some j =>
      rw [colIdxAux_append_of_some c2 f.cols [c] j hj]
      have hkj : f.cols.length ≠ j :=
        fun hc => absurd (colIdxAux_lt_length c2 f.cols j hj) (hc ▸ lt_irrefl _)
      show Except.ok ((setMaskedAt f.cols.length (f.rows.map (fun r => r ++ [Val.na]))
          m vals).map (fun r => r.getD j Val.na))
        = Except.ok (f.rows.map (fun r => r.getD j Val.na))
      rw [setMaskedAt_getD_ne f.cols.length j hkj, List.map_map]
      refine congrArg Except.ok (List.map_congr_left ?_)
      intro r _
      exact getD_append_na r j

theorem getD_append_self (r : Row) (v d : Val) : (r ++ [v]).getD r.length d = v := by
  induction r with
  | nil => rfl
  | cons x t ih => exact ih

theorem colIdxAux_append_self (c : String) :
    ∀ (l : List String), colIdxAux c l = none → colIdxAux c (l ++ [c]) = some l.length := by
  intro l
  induction l with
  | nil => intro _; simp [colIdxAux]
  | cons x t ih =>
    intro h
    have hx : ¬ x = c := fun hc => by
      rw [colIdxAux, if_pos hc] at h
      exact absurd h (by simp)
    have ht : colIdxAux c t = none := by
      rw [colIdxAux, if_neg hx] at h
      cases h3 : colIdxAux c t with
      | none => rfl
      | some i2 => rw [h3] at h; exact absurd h (by simp)
    show colIdxAux c (x :: (t ++ [c])) = some (t.length + 1)
    rw [colIdxAux, if_neg hx, ih ht]
    rfl

theorem cellAtD_locMaskSetCol_false (f : Frame) (m : List Bool) (c : String)
    (vals : List Val) (i : Nat) (hwf : WFrows f) (hm : m.getD i false = false) :
    cellAtD (locMaskSetCol f m c vals) c i = cellAtD f c i := by
  unfold locMaskSetCol ensureCol
  cases hk : colIdx f c with
  | some k =>
    show cellAtD ⟨f.cols, f.index, setMaskedAt k f.rows m vals⟩ c i = cellAtD f c i
    unfold cellAtD colIdx
    rw [show colIdxAux c f.cols = some k from hk,
      setMaskedAt_row_of_false k f.rows m vals i hm]
  | none =>
    show cellAtD ⟨f.cols ++ [c], f.index,
      setMaskedAt f.cols.length (f.rows.map (fun r => r ++ [Val.na])) m vals⟩ c i
      = cellAtD f c i
    unfold cellAtD colIdx
    rw [show colIdxAux c f.cols = none from hk,
      colIdxAux_append_self c f.cols hk,
      setMaskedAt_row_of_false _ _ m vals i hm]
    by_cases hi : i < f.rows.length
    · have hrow : (f.rows.map (fun r => r ++ [Val.na])).getD i [] = f.rows[i] ++ [Val.na] := by
        rw [List.getD_eq_getElem?_getD, List.getElem?_map, List.getElem?_eq_getElem hi]
        rfl
      rw [hrow]
      have hlen : (f.rows[i]).length = f.cols.length := hwf _ (List.getElem_mem hi)
      dsimp only
      rw [← hlen, getD_append_self]
    · have hnil : (f.rows.map (fun r => r ++ [Val.na])).getD i [] = [] := by
        apply List.getD_eq_default
        simpa using (not_lt.1 hi)
      rw [hnil]
      rfl

theorem setMaskedAt_mem_length (k : Nat) :
    ∀ (rows : List Row) (m : List Bool) (vals : List Val) (r : Row),
      r ∈ setMaskedAt k rows m vals → ∃ r0 ∈ rows, r.length = r0.length := by
  intro rows
  induction rows with
  | nil => intro m vals r h; exact absurd h (List.not_mem_nil r)
  | cons r0 rs ih =>
    intro m vals r h
    cases m with
    | nil => exact ⟨r, h, rfl⟩
    | cons b ms =>
      cases b with
      | true =>
        rcases List.mem_cons.1 h with rfl | h2
        · exact ⟨r0, List.mem_cons_self r0 rs, by simp⟩
        · rcases ih ms vals.tail r h2 with ⟨r1, hr1, hl⟩
          exact ⟨r1, List.mem_cons_of_mem r0 hr1, hl⟩
      | false =>
        rcases List.mem_cons.1 h with rfl | h2
        · exact ⟨r, List.mem_cons_self r rs, rfl⟩
        · rcases ih ms vals r h2 with ⟨r1, hr1, hl⟩
          exact ⟨r1, List.mem_cons_of_mem r0 hr1, hl⟩

theorem WFrows_locMaskSetCol (f : Frame) (m : List Bool) (c : String) (vals : List Val)
    (hwf : WFrows f) : WFrows (locMaskSetCol f m c vals) := by
  unfold locMaskSetCol ensureCol
  cases hk : colIdx f c with
  | some k =>
    intro r hr
    rcases setMaskedAt_mem_length k f.rows m vals r hr with ⟨r0, hr0, hl⟩
    exact hl.trans (hwf r0 hr0)
  | none =>
    intro r hr
    rcases setMaskedAt_mem_length f.cols.length (f.rows.map (fun x => x ++ [Val.na]))
      m vals r hr with ⟨r0, hr0, hl⟩
    rcases List.mem_map.1 hr0 with ⟨r1, hr1, rfl⟩
    show r.length = (f.cols ++ [c]).length
    rw [hl]
    simp [hwf r1 hr1]

theorem locMaskSetCol_rows_length (f : Frame) (m : List Bool) (c : String)
    (vals : List Val) :
    (locMaskSetCol f m c vals).rows.length = f.rows.length := by
  unfold locMaskSetCol ensureCol
  cases colIdx f c with
  | some k => exact setMaskedAt_length k f.rows m vals
  | none =>
    show (setMaskedAt _ (f.rows.map _) m vals).length = _
    rw [setMaskedAt_length]
    simp

theorem normStep_ok (meta : Frame) (sC eC oC msC dC : String) (acc c : Frame)
    (site : Val) (svals : List Val)
    (hsv : getCol acc sC = .ok svals)
    (hok : normStep meta sC eC oC msC dC acc site = .ok c) :
    ∃ vals, c = locMaskSetCol acc (svals.map (fun x => decide (x = site))) oC vals := by
  unfold normStep at hok
  cases h1 : maskEqCol meta msC site with
  | error e => rw [h1, err_bind] at hok; exact absurd hok (by simp)
  | ok mm =>
    rw [h1, ok_bind, maskEqCol_ok acc sC site svals hsv, ok_bind] at hok
    cases h3 : locMaskGetCol acc (svals.map (fun x => decide (x = site))) eC with
    | error e => rw [h3, err_bind] at hok; exact absurd hok (by simp)
    | ok powers =>
      rw [h3, ok_bind] at hok
      cases h4 : locMaskGetCol meta mm dC with
      | error e => rw [h4, err_bind] at hok; exact absurd hok (by simp)
      | ok caps =>
        rw [h4, ok_bind] at hok
        cases h5 : ilocFirst caps with
        | error e => rw [h5, err_bind] at hok; exact absurd hok (by simp)
        | ok cap =>
          rw [h5, ok_bind] at hok
          cases hok
          exact ⟨powers.map (fun p => vdiv p cap), rfl⟩

theorem mem_of_colIdxAux (c : String) :
    ∀ (l : List String) (k : Nat), colIdxAux c l = some k → c ∈ l := by
  intro l
  induction l with
  | nil => intro k h; exact absurd h (by simp [colIdxAux])
  | cons x t ih =>
    intro k h
    by_cases hx : x = c
    · exact hx ▸ List.mem_cons_self x t
    · rw [colIdxAux, if_neg hx] at h
      cases hk : colIdxAux c t with
      | none => rw [hk] at h; exact absurd h (by simp)
      | some i => exact List.mem_cons_of_mem x (ih i hk)

theorem mem_cols_of_getCol_ok (f : Frame) (c : String) (vals : List Val)
    (h : getCol f c = .ok vals) : c ∈ f.cols := by
  rcases getCol_colIdx f c vals h with ⟨i, hi, _⟩
  exact mem_of_colIdxAux c f.cols i hi

theorem cellAtD_of_not_mem (f : Frame) (c : String) (i : Nat) (h : c ∉ f.cols) :
    cellAtD f c i = Val.na := by
  unfold cellAtD colIdx
  rw [colIdxAux_eq_none c f.cols h]

theorem find_zip_of_mem (s : Val) :
    ∀ (a : List Val) (b : List Row), s ∈ a → a.length ≤ b.length →
      ∃ x, (a.zip b).find? (fun p => decide (p.1 = s)) = some x := by
  intro a
  induction a with
  | nil => intro b h _; exact absurd h (List.not_mem_nil s)
  | cons x t ih =>
    intro b h hlen
    cases b with
    | nil => exact absurd hlen (by simp)
    | cons r rs =>
      by_cases hx : x = s
      · exact ⟨(x, r), by simp [List.zip_cons_cons, List.find?_cons, hx]⟩
      · have ht : s ∈ t := by
          rcases List.mem_cons.1 h with rfl | h2
          · exact absurd rfl hx
          · exact h2
        rcases ih rs ht (by simpa using Nat.le_of_succ_le_succ hlen) with ⟨p, hp⟩
        refine ⟨p, ?_⟩
        rw [List.zip_cons_cons, List.find?_cons_of_neg _ (by simpa using hx)]
        exact hp

theorem find_zip_none_of_not_mem (s : Val) :
    ∀ (a : List Val) (b : List Row), s ∉ a →
      (a.zip b).find? (fun p => decide (p.1 = s)) = none := by
  intro a
  induction a with
  | nil => intro b _; simp
  | cons x t ih =>
    intro b h
    cases b with
    | nil => simp
    | cons r rs =>
      have hx : ¬ x = s := fun hc => h (hc ▸ List.mem_cons_self x t)
      rw [List.zip_cons_cons, List.find?_cons_of_neg _ (by simpa using hx)]
      exact ih rs (fun hc => h (List.mem_cons_of_mem x hc))

theorem locIndex_ok_of_mem (f : Frame) (lbl : Val) (c : String)
    (hc : c ∈ f.cols) (h : lbl ∈ f.index) (hlen : f.index.length ≤ f.rows.length) :
    ∃ v, locIndex f lbl c = .ok v := by
  rcases colIdx_isSome_of_mem f c hc with ⟨i, hi⟩
  rcases find_zip_of_mem lbl f.index f.rows h hlen with ⟨p, hp⟩
  refine ⟨p.2.getD i Val.na, ?_⟩
  unfold locIndex
  rw [hi, hp]

theorem locIndex_err_of_not_mem (f : Frame) (lbl : Val) (c : String)
    (hc : c ∈ f.cols) (h : lbl ∉ f.index) :
    locIndex f lbl c = .error (.lookupError lbl) := by
  rcases colIdx_isSome_of_mem f c hc with ⟨i, hi⟩
  unfold locIndex
  rw [hi, find_zip_none_of_not_mem lbl f.index f.rows h]

theorem mem_cols_ensureCol (f : Frame) (c d : String) (h : c ∈ f.cols) :
    c ∈ (ensureCol f d).1.cols := by
  rcases ensureCol_cols f d with he | he
  · rw [he]; exact h
  · rw [he]; exact List.mem_append_left _ h

theorem mem_cols_ensureCols (c : String) :
    ∀ (cs : List String) (f : Frame), c ∈ f.cols → c ∈ (ensureCols f cs).1.cols := by
  intro cs
  induction cs with
  | nil => intro f h; exact h
  | cons d ds ih =>
    intro f h
    exact ih (ensureCol f d).1 (mem_cols_ensureCol f c d h)

theorem mem_cols_locMaskSetCols (f : Frame) (m : List Bool) (cs : List String)
    (rows : List Row) (c : String) (h : c ∈ f.cols) :
    c ∈ (locMaskSetCols f m cs rows).cols :=
  mem_cols_ensureCols c cs f h

theorem solarStep_ok_of_mem (spa : List Val → Val → Val → List Row) (meta : Frame)
    (sC lonC latC : String) (acc : Frame) (site : Val)
    (hsC : sC ∈ acc.cols) (hlon : lonC ∈ meta.cols) (hlat : latC ∈ meta.cols)
    (hsite : site ∈ meta.index) (hmlen : meta.index.length ≤ meta.rows.length) :
    ∃ c, solarStep spa meta sC lonC latC acc site = .ok c ∧ sC ∈ c.cols := by
  rcases getCol_ok_of_mem acc sC hsC with ⟨svals, hsv, _⟩
  rcases locIndex_ok_of_mem meta site lonC hlon hsite hmlen with ⟨lon, hlonv⟩
  rcases locIndex_ok_of_mem meta site latC hlat hsite hmlen with ⟨lat, hlatv⟩
  refine ⟨locMaskSetCols acc (svals.map (fun x => decide (x = site))) positionalColumns
    (spa (maskedIndex acc (svals.map (fun x => decide (x = site)))) lon lat), ?_,
    mem_cols_locMaskSetCols acc _ positionalColumns _ sC hsC⟩
  unfold solarStep
  rw [maskEqCol_ok acc sC site svals hsv, ok_bind, hlonv, ok_bind, hlatv, ok_bind]
  rfl

theorem solarStep_err_of_not_mem (spa : List Val → Val → Val → List Row) (meta : Frame)
    (sC lonC latC : String) (acc : Frame) (site : Val)
    (hsC : sC ∈ acc.cols) (hlon : lonC ∈ meta.cols) (hsite : site ∉ meta.index) :
    solarStep spa meta sC lonC latC acc site = .error (.lookupError site) := by
  rcases getCol_ok_of_mem acc sC hsC with ⟨svals, hsv, _⟩
  unfold solarStep
  rw [maskEqCol_ok acc sC site svals hsv, ok_bind,
    locIndex_err_of_not_mem meta site lonC hlon hsite, err_bind]

/-- Amended claim C8: the behavior on a production site with no metadata
row differs per operation.  `establish_solar_loc` iterates the production
frame's site values ('randid' column) and fails with the missing-label
lookup error at the first iterated site absent from the metadata index.
`normalize_production_by_capacity`, by contrast, iterates the metadata
site IDs only, so a production site absent from metadata is silently
skipped: the call does not fail on its account and that site's rows of the
(freshly created) output column remain NaN. -/
theorem C8_missing_metadata_split_behavior :
    (∀ (spa : List Val → Val → Val → List Row) (prod : Frame) (sC : String)
        (meta : Frame) (lonC latC : String) (rvals : List Val),
      getCol prod "randid" = .ok rvals → sC ∈ prod.cols →
      lonC ∈ meta.cols → latC ∈ meta.cols →
      meta.index.length ≤ meta.rows.length →
      (∃ s, s ∈ rvals ∧ s ∉ meta.index) →
      ∃ s, s ∉ meta.index ∧
        establish_solar_loc spa prod sC meta lonC latC = .error (.lookupError s)) ∧
    (∀ (prod : Frame) (sC eC oC : String) (meta : Frame) (msC dC : String)
        (mvals svals : List Val) (F : Frame),
      getCol meta msC = .ok mvals → getCol prod sC = .ok svals →
      oC ∉ prod.cols → WFrows prod →
      normalize_production_by_capacity prod sC eC oC meta msC dC = .ok F →
      ∀ i, svals.getD i Val.na ∉ mvals → cellAtD F oC i = Val.na) := by
  constructor
  · intro spa prod sC meta lonC latC rvals hr hsC hlon hlat hmlen hex
    rcases hex with ⟨s, hsr, hsm⟩
    have herr := foldlM_err_of (fun acc => sC ∈ acc.cols) (fun x => x ∉ meta.index)
      (fun e => ∃ x, x ∉ meta.index ∧ e = .lookupError x)
      (solarStep spa meta sC lonC latC) (uniqueVals rvals) prod hsC
      ⟨s, (mem_uniqueVals s rvals).2 hsr, hsm⟩
      (fun acc a _ hP hq => by
        rcases solarStep_ok_of_mem spa meta sC lonC latC acc a hP hlon hlat
          (not_not.1 hq) hmlen with ⟨c, hc, hcc⟩
        exact ⟨c, hc, hcc⟩)
      (fun acc a _ hP hq =>
        ⟨.lookupError a, solarStep_err_of_not_mem spa meta sC lonC latC acc a hP hlon hq,
          a, hq, rfl⟩)
    rcases herr with ⟨e, hfold, x, hx, rfl⟩
    refine ⟨x, hx, ?_⟩
    unfold establish_solar_loc
    rw [hr, ok_bind, hfold]
  · intro prod sC eC oC meta msC dC mvals svals F hm hsv hoC hwf hF i hiv
    have hsCmem : sC ∈ prod.cols := mem_cols_of_getCol_ok prod sC svals hsv
    have hne : sC ≠ oC := fun hc => hoC (hc ▸ hsCmem)
    unfold normalize_production_by_capacity at hF
    rw [hm, ok_bind] at hF
    have hinv := foldlM_ok_inv
      (fun acc => getCol acc sC = .ok svals ∧ WFrows acc ∧
        (∀ i, svals.getD i Val.na ∉ mvals → cellAtD acc oC i = Val.na))
      (normStep meta sC eC oC msC dC) (pySet mvals) prod F
      (fun acc a c ha hP hstep => by
        rcases normStep_ok meta sC eC oC msC dC acc c a svals hP.1 hstep with ⟨vals, rfl⟩
        refine ⟨?_, WFrows_locMaskSetCol acc _ oC vals hP.2.1, ?_⟩
        · rw [getCol_locMaskSetCol_ne acc _ oC sC vals hne]
          exact hP.1
        · intro i hiv
          have hmask : (svals.map (fun x => decide (x = a))).getD i false = false := by
            refine mask_getD_false a svals i ?_
            intro hc
            exact hiv (hc ▸ (mem_pySet a mvals).1 ha)
          rw [cellAtD_locMaskSetCol_false acc _ oC vals i hP.2.1 hmask]
          exact hP.2.2 i hiv)
      hF
      ⟨hsv, hwf, fun i _ => cellAtD_of_not_mem prod oC i hoC⟩
    exact hinv.2.2 i hiv

/-- Witness for the amended claim C8: establish_solar_loc fails looking up
site A (present in production, absent from metadata), while
normalize_production_by_capacity leaves unmatched site A's output cell NaN. -/
theorem C8_missing_metadata_split_behavior_witness :
    (∃ s, s ∉ metaSolarExample.index ∧
      establish_solar_loc spaSix prodSolarExample "sid" metaSolarExample "lon" "lat"
        = .error (.lookupError s)) ∧
    cellAtD ⟨["sid", "en", "norm"], [Val.num 0], [[Val.str "A", Val.num 10, Val.na]]⟩
      "norm" 0 = Val.na := by
  constructor
  · exact C8_missing_metadata_split_behavior.1 spaSix prodSolarExample "sid"
      metaSolarExample "lon" "lat" [Val.str "A"] (by decide) (by decide) (by decide)
      (by decide) (by decide) ⟨Val.str "A", by decide, by decide⟩
  · exact C8_missing_metadata_split_behavior.2 prodNormExample "sid" "en" "norm"
      metaNormExample "msid" "dc" [Val.str "B"] [Val.str "A"]
      ⟨["sid", "en", "norm"], [Val.num 0], [[Val.str "A", Val.num 10, Val.na]]⟩
      (by decide) (by decide) (by decide) (by unfold WFrows; decide) (by decide) 0 (by decide)

theorem mem_cols_setColList (f : Frame) (c2 : String) (vals : List Val) (c : String)
    (h : c ∈ f.cols) : c ∈ (setColList f c2 vals).cols := by
  unfold setColList
  cases colIdx f c2 with
  | some i => exact h
  | none => exact List.mem_append_left _ h

theorem mem_cols_locMaskSetCol (f : Frame) (m : List Bool) (c2 : String)
    (vals : List Val) (c : String) (h : c ∈ f.cols) :
    c ∈ (locMaskSetCol f m c2 vals).cols := by
  unfold locMaskSetCol
  exact mem_cols_ensureCol f c c2 h

theorem normStep_total (meta : Frame) (sC eC oC msC dC : String) (acc : Frame)
    (site : Val) (mvals : List Val)
    (hm : getCol meta msC = .ok mvals) (hsite : site ∈ mvals)
    (hsC : sC ∈ acc.cols) (heC : eC ∈ acc.cols) (hdC : dC ∈ meta.cols) :
    ∃ c, normStep meta sC eC oC msC dC acc site = .ok c ∧
      sC ∈ c.cols ∧ eC ∈ c.cols := by
  rcases getCol_ok_of_mem acc sC hsC with ⟨svals, hsv, _⟩
  rcases getCol_ok_of_mem acc eC heC with ⟨evals, hev, _⟩
  rcases getCol_ok_of_mem meta dC hdC with ⟨dvals, hdv, hdlen⟩
  have hcaps := filterMasked_ne_nil dvals (mvals.map (fun x => decide (x = site)))
    (by rw [hdlen, List.length_map, getCol_length meta msC mvals hm])
    (List.mem_map.2 ⟨site, hsite, by simp⟩)
  rcases ilocFirst_ok_of_ne_nil _ hcaps with ⟨cap, hcap⟩
  have hstep : normStep meta sC eC oC msC dC acc site = .ok (locMaskSetCol acc
      (svals.map (fun x => decide (x = site))) oC
      (((evals.zip (svals.map (fun x => decide (x = site)))).filterMap
        (fun p => if p.2 then some p.1 else none)).map (fun p => vdiv p cap))) := by
    unfold normStep
    rw [maskEqCol_ok meta msC site mvals hm, ok_bind,
      maskEqCol_ok acc sC site svals hsv, ok_bind,
      locMaskGetCol_ok acc _ eC evals hev, ok_bind,
      locMaskGetCol_ok meta _ dC dvals hdv, ok_bind, hcap, ok_bind]
    rfl
  exact ⟨_, hstep, mem_cols_locMaskSetCol acc _ oC _ sC hsC,
    mem_cols_locMaskSetCol acc _ oC _ eC heC⟩

theorem clipStep_total
    (g : List Val → GeoParams → List Bool) (t : List Val → ThrParams → List Bool)
    (lv : List Val → LevParams → List Bool) (sC pC model : String)
    (kwargs : List (String × Val)) (acc : Frame) (site : Val)
    (hsC : sC ∈ acc.cols) (hpC : pC ∈ acc.cols)
    (hmodel : model = "geometric" ∨ model = "threshold" ∨ model = "levels") :
    ∃ c, clipStep g t lv sC pC model kwargs acc site = .ok c ∧
      sC ∈ c.cols ∧ pC ∈ c.cols := by
  rcases getCol_ok_of_mem acc sC hsC with ⟨svals, hsv, _⟩
  rcases getCol_ok_of_mem acc pC hpC with ⟨pvals, hpv, _⟩
  unfold clipStep
  rw [maskEqCol_ok acc sC site svals hsv, ok_bind,
    locMaskGetCol_ok acc _ pC pvals hpv, ok_bind]
  by_cases hz : ((pvals.zip (svals.map (fun x => decide (x = site)))).filterMap
      (fun p => if p.2 then some p.1 else none)).length = 0
  · rw [if_pos hz]
    exact ⟨acc, rfl, hsC, hpC⟩
  · rw [if_neg hz]
    rcases hmodel with hmo | hmo | hmo
    · rw [if_pos hmo]
      exact ⟨_, rfl, mem_cols_locMaskSetCol acc _ "mask" _ sC hsC,
        mem_cols_locMaskSetCol acc _ "mask" _ pC hpC⟩
    · rw [if_neg (by rw [hmo]; decide), if_pos hmo]
      exact ⟨_, rfl, mem_cols_locMaskSetCol acc _ "mask" _ sC hsC,
        mem_cols_locMaskSetCol acc _ "mask" _ pC hpC⟩
    · rw [if_neg (by rw [hmo]; decide), if_neg (by rw [hmo]; decide), if_pos hmo]
      exact ⟨_, rfl, mem_cols_locMaskSetCol acc _ "mask" _ sC hsC,
        mem_cols_locMaskSetCol acc _ "mask" _ pC hpC⟩

theorem irrStep_total
    (tz : Val → Val → Val) (cs : Val → Val → Val → List Val → String → List Val)
    (meta : Frame) (tsC sC csC msC latC lonC it : String) (acc : Frame) (site : Val)
    (mvals : List Val)
    (hm : getCol meta msC = .ok mvals) (hsite : site ∈ mvals)
    (hlat : latC ∈ meta.cols) (hlon : lonC ∈ meta.cols)
    (hts : tsC ∈ acc.cols) (hsC : sC ∈ acc.cols)
    (hit : it = "dni" ∨ it = "ghi" ∨ it = "dhi") :
    ∃ c, irrStep tz cs meta tsC sC csC msC latC lonC it acc site = .ok c ∧
      (∀ x, x ∈ acc.cols → x ∈ c.cols) := by
  have htrue : true ∈ mvals.map (fun x => decide (x = site)) :=
    List.mem_map.2 ⟨site, hsite, by simp⟩
  rcases getCol_ok_of_mem acc sC hsC with ⟨svals, hsv, _⟩
  rcases getCol_ok_of_mem acc tsC hts with ⟨tvals, htv, _⟩
  rcases getCol_ok_of_mem meta latC hlat with ⟨lavals, hlav, hlalen⟩
  rcases getCol_ok_of_mem meta lonC hlon with ⟨lovals, hlov, hlolen⟩
  have hmlen : mvals.length = meta.rows.length := getCol_length meta msC mvals hm
  rcases ilocFirst_ok_of_ne_nil _ (filterMasked_ne_nil lavals
    (mvals.map (fun x => decide (x = site)))
    (by rw [hlalen, List.length_map, hmlen]) htrue) with ⟨lat, hlatv⟩
  rcases ilocFirst_ok_of_ne_nil _ (filterMasked_ne_nil lovals
    (mvals.map (fun x => decide (x = site)))
    (by rw [hlolen, List.length_map, hmlen]) htrue) with ⟨lon, hlonv⟩
  unfold irrStep
  rw [maskEqCol_ok meta msC site mvals hm, ok_bind,
    maskEqCol_ok acc sC site svals hsv, ok_bind,
    locMaskGetCol_ok acc _ tsC tvals htv, ok_bind,
    locMaskGetCol_ok meta _ latC lavals hlav, ok_bind, hlatv, ok_bind,
    locMaskGetCol_ok meta _ lonC lovals hlov, ok_bind, hlonv, ok_bind]
  rw [if_neg (by rcases hit with h | h | h <;> rw [h] <;> decide), if_pos hit]
  exact ⟨_, rfl, fun x hx => mem_cols_setColList acc csC _ x hx⟩

/-- Amended claim C4: normalization, the clearsky filter and the clipping
filter loop over the distinct site IDs of the metadata dataset, and a site
with metadata but no production rows causes no error — under the required
column hypotheses each of the three calls succeeds for every production
dataset, whatever sites it does or does not contain (the clipping filter
skips empty slices explicitly; the other two process an empty row
selection).  Solar-position enrichment instead derives its loop from the
production frame's literal 'randid' column: without that column it fails
with the randid KeyError no matter what sites the metadata holds. -/
theorem C4_loops_over_metadata_sites :
    (∀ (prod : Frame) (sC eC oC : String) (meta : Frame) (msC dC : String)
        (mvals : List Val),
      getCol meta msC = .ok mvals → sC ∈ prod.cols → eC ∈ prod.cols → dC ∈ meta.cols →
      ∃ F, normalize_production_by_capacity prod sC eC oC meta msC dC = .ok F) ∧
    (∀ (g : List Val → GeoParams → List Bool) (t : List Val → ThrParams → List Bool)
        (lv : List Val → LevParams → List Bool) (prod : Frame) (sC pC : String)
        (meta : Frame) (msC model : String) (kwargs : List (String × Val))
        (mvals : List Val),
      getCol meta msC = .ok mvals → sC ∈ prod.cols → pC ∈ prod.cols →
      (model = "geometric" ∨ model = "threshold" ∨ model = "levels") →
      ∃ F, prod_inverter_clipping_filter g t lv prod sC pC meta msC model kwargs = .ok F) ∧
    (∀ (tz : Val → Val → Val) (cs : Val → Val → Val → List Val → String → List Val)
        (lim : List Val → List Val → Rat → List Bool) (prod : Frame)
        (tsC sC irrC csC : String) (meta : Frame) (msC latC lonC : String)
        (it : String) (csi : Rat) (mvals : List Val),
      getCol meta msC = .ok mvals → tsC ∈ prod.cols → sC ∈ prod.cols →
      irrC ∈ prod.cols → csC ∈ prod.cols → latC ∈ meta.cols → lonC ∈ meta.cols →
      (it = "dni" ∨ it = "ghi" ∨ it = "dhi") →
      ∃ F m2, prod_irradiance_filter tz cs lim prod tsC sC irrC csC meta msC latC lonC
        false it csi = .ok (F, m2)) ∧
    (∀ (spa : List Val → Val → Val → List Row) (prod : Frame) (sC : String)
        (meta : Frame) (lonC latC : String), "randid" ∉ prod.cols →
      establish_solar_loc spa prod sC meta lonC latC = .error (.keyError "randid")) := by
  refine ⟨?_, ?_, ?_, ?_⟩
  · intro prod sC eC oC meta msC dC mvals hm hsC heC hdC
    rcases foldlM_ok_of (fun acc => sC ∈ acc.cols ∧ eC ∈ acc.cols)
      (normStep meta sC eC oC msC dC) (pySet mvals) prod
      (fun acc a ha hP => by
        rcases normStep_total meta sC eC oC msC dC acc a mvals hm
          ((mem_pySet a mvals).1 ha) hP.1 hP.2 hdC with ⟨c, hc, h1, h2⟩
        exact ⟨c, hc, h1, h2⟩) ⟨hsC, heC⟩ with ⟨F, hF, _⟩
    refine ⟨F, ?_⟩
    unfold normalize_production_by_capacity
    rw [hm, ok_bind, hF]
  · intro g t lv prod sC pC meta msC model kwargs mvals hm hsC hpC hmodel
    rcases foldlM_ok_of (fun acc => sC ∈ acc.cols ∧ pC ∈ acc.cols)
      (clipStep g t lv sC pC model kwargs) (pySet mvals) prod
      (fun acc a _ hP => by
        rcases clipStep_total g t lv sC pC model kwargs acc a hP.1 hP.2 hmodel
          with ⟨c, hc, h1, h2⟩
        exact ⟨c, hc, h1, h2⟩) ⟨hsC, hpC⟩ with ⟨F, hF, _⟩
    refine ⟨F, ?_⟩
    unfold prod_inverter_clipping_filter
    rw [hm, ok_bind, hF]
  · intro tz cs lim prod tsC sC irrC csC meta msC latC lonC it csi mvals
      hm hts hsC hirr hcs hlat hlon hit
    rcases foldlM_ok_of
      (fun acc => tsC ∈ acc.cols ∧ sC ∈ acc.cols ∧ irrC ∈ acc.cols ∧ csC ∈ acc.cols)
      (irrStep tz cs meta tsC sC csC msC latC lonC it) (pySet mvals) prod
      (fun acc a ha hP => by
        rcases irrStep_total tz cs meta tsC sC csC msC latC lonC it acc a mvals hm
          ((mem_pySet a mvals).1 ha) hlat hlon hP.1 hP.2.1 hit with ⟨c, hc, hmono⟩
        exact ⟨c, hc, hmono tsC hP.1, hmono sC hP.2.1, hmono irrC hP.2.2.1,
          hmono csC hP.2.2.2⟩) ⟨hts, hsC, hirr, hcs⟩ with ⟨prodF, hfold, hPF⟩
    rcases getCol_ok_of_mem prodF irrC hPF.2.2.1 with ⟨irrV, hirrV, _⟩
    rcases getCol_ok_of_mem prodF csC hPF.2.2.2 with ⟨csV, hcsV, _⟩
    refine ⟨setColList prodF "mask" ((lim irrV csV csi).map Val.bool), lim irrV csV csi, ?_⟩
    unfold prod_irradiance_filter prodIrrCore
    rw [hm, ok_bind, hfold, ok_bind, hirrV, ok_bind, hcsV, ok_bind]
    rfl
  · intro spa prod sC meta lonC latC h
    unfold establish_solar_loc
    rw [getCol_err_of_not_mem prod "randid" h]
    rfl

/-- Witness for the amended claim C4: metadata site B has no production
rows, yet normalization, the clipping filter (model geometric) and the
clearsky filter all succeed; and a frame without a 'randid' column makes
solar enrichment fail. -/
theorem C4_loops_over_metadata_sites_witness :
    (∃ F, normalize_production_by_capacity prodNormExample "sid" "en" "norm"
      metaNormExample "msid" "dc" = .ok F) ∧
    (∃ F, prod_inverter_clipping_filter geoNone thrRevealing levNone prodClipExample
      "sid" "pw" metaNormExample "msid" "geometric" [] = .ok F) ∧
    (∃ F m2, prod_irradiance_filter tzConst csLatitude limitsFalse prodIrrExample
      "ts" "sid" "irr" "csirr" metaIrrExample "msid" "lat" "lon" false "ghi" (11/10 : Rat)
      = .ok (F, m2)) ∧
    establish_solar_loc spaSix prodClipExample "sid" metaNormExample "lon" "lat"
      = .error (.keyError "randid") := by
  refine ⟨?_, ?_, ?_, ?_⟩
  · exact C4_loops_over_metadata_sites.1 prodNormExample "sid" "en" "norm"
      metaNormExample "msid" "dc" [Val.str "B"] (by decide) (by decide) (by decide)
      (by decide)
  · exact C4_loops_over_metadata_sites.2.1 geoNone thrRevealing levNone prodClipExample
      "sid" "pw" metaNormExample "msid" "geometric" [] [Val.str "B"] (by decide)
      (by decide) (by decide) (Or.inl rfl)
  · exact C4_loops_over_metadata_sites.2.2.1 tzConst csLatitude limitsFalse prodIrrExample
      "ts" "sid" "irr" "csirr" metaIrrExample "msid" "lat" "lon" "ghi" (11/10 : Rat)
      [Val.str "A", Val.str "B"] (by decide) (by decide) (by decide) (by decide)
      (by decide) (by decide) (by decide) (Or.inr (Or.inl rfl))
  · exact C4_loops_over_metadata_sites.2.2.2 spaSix prodClipExample "sid" metaNormExample
      "lon" "lat" (by decide)

/-! ## Lemmas for the drop-branch equivalence -/

theorem getD_set_self (l : Row) : ∀ (k : Nat) (a d : Val), k < l.length →
    (l.set k a).getD k d = a := by
  induction l with
  | nil => intro k a d h; exact absurd h (by simp)
  | cons x t ih =>
    intro k a d h
    cases k with
    | zero => rfl
    | succ n => exact ih n a d (by simpa using h)

theorem setColAtAux_readback (k : Nat) :
    ∀ (rows : List Row) (vals : List Val), (∀ r ∈ rows, k < r.length) →
      vals.length = rows.length →
      (setColAtAux k rows vals).map (fun r => r.getD k Val.na) = vals := by
  intro rows
  induction rows with
  | nil =>
    intro vals _ hlen
    rw [List.length_nil, List.length_eq_zero] at hlen
    subst hlen
    rfl
  | cons r rs ih =>
    intro vals hk hlen
    cases vals with
    | nil => exact absurd hlen (by simp)
    | cons v vt =>
      show (r.set k v).getD k Val.na ::
        (setColAtAux k rs vt).map (fun x => x.getD k Val.na) = v :: vt
      rw [getD_set_self r k v Val.na (hk r (List.mem_cons_self r rs)),
        ih vt (fun x hx => hk x (List.mem_cons_of_mem r hx)) (by simpa using hlen)]

theorem appendColAux_readback (L : Nat) :
    ∀ (rows : List Row) (vals : List Val), (∀ r ∈ rows, r.length = L) →
      vals.length = rows.length →
      (appendColAux rows vals).map (fun r => r.getD L Val.na) = vals := by
  intro rows
  induction rows with
  | nil =>
    intro vals _ hlen
    rw [List.length_nil, List.length_eq_zero] at hlen
    subst hlen
    rfl
  | cons r rs ih =>
    intro vals hk hlen
    cases vals with
    | nil => exact absurd hlen (by simp)
    | cons v vt =>
      show (r ++ [v]).getD L Val.na ::
        (appendColAux rs vt).map (fun x => x.getD L Val.na) = v :: vt
      have hr : (r ++ [v]).getD L Val.na = v := by
        rw [← hk r (List.mem_cons_self r rs)]
        exact getD_append_self r v Val.na
      rw [hr, ih vt (fun x hx => hk x (List.mem_cons_of_mem r hx)) (by simpa using hlen)]

theorem getCol_setColList_self (f : Frame) (c : String) (vals : List Val)
    (hwf : WFrows f) (hlen : vals.length = f.rows.length) :
    getCol (setColList f c vals) c = .ok vals := by
  unfold setColList
  cases hk : colIdx f c with
  | some k =>
    show getCol ⟨f.cols, f.index, setColAtAux k f.rows vals⟩ c = .ok vals
    unfold getCol colIdx
    rw [show colIdxAux c f.cols = some k from hk]
    dsimp only
    rw [setColAtAux_readback k f.rows vals
      (fun r hr => (hwf r hr).symm ▸ colIdxAux_lt_length c f.cols k hk) hlen]
  | none =>
    show getCol ⟨f.cols ++ [c], f.index, appendColAux f.rows vals⟩ c = .ok vals
    unfold getCol colIdx
    rw [colIdxAux_append_self c f.cols hk]
    dsimp only
    rw [appendColAux_readback f.cols.length f.rows vals hwf hlen]

theorem setColAtAux_length (k : Nat) :
    ∀ (rows : List Row) (vals : List Val), (setColAtAux k rows vals).length = rows.length := by
  intro rows
  induction rows with
  | nil => intro vals; rfl
  | cons r rs ih => intro vals; simp [setColAtAux, ih]

theorem appendColAux_length :
    ∀ (rows : List Row) (vals : List Val), (appendColAux rows vals).length = rows.length := by
  intro rows
  induction rows with
  | nil => intro vals; rfl
  | cons r rs ih => intro vals; simp [appendColAux, ih]

theorem setColAtAux_mem_length (k : Nat) :
    ∀ (rows : List Row) (vals : List Val) (r : Row), r ∈ setColAtAux k rows vals →
      ∃ r0 ∈ rows, r.length = r0.length := by
  intro rows
  induction rows with
  | nil => intro vals r h; exact absurd h (List.not_mem_nil r)
  | cons r0 rs ih =>
    intro vals r h
    rcases List.mem_cons.1 h with rfl | h2
    · exact ⟨r0, List.mem_cons_self r0 rs, by simp⟩
    · rcases ih vals.tail r h2 with ⟨r1, hr1, hl⟩
      exact ⟨r1, List.mem_cons_of_mem r0 hr1, hl⟩

theorem appendColAux_mem_length :
    ∀ (rows : List Row) (vals : List Val) (r : Row), r ∈ appendColAux rows vals →
      ∃ r0 ∈ rows, r.length = r0.length + 1 := by
  intro rows
  induction rows with
  | nil => intro vals r h; exact absurd h (List.not_mem_nil r)
  | cons r0 rs ih =>
    intro vals r h
    rcases List.mem_cons.1 h with rfl | h2
    · exact ⟨r0, List.mem_cons_self r0 rs, by simp⟩
    · rcases ih vals.tail r h2 with ⟨r1, hr1, hl⟩
      exact ⟨r1, List.mem_cons_of_mem r0 hr1, hl⟩

theorem WFrows_setColList (f : Frame) (c : String) (vals : List Val)
    (hwf : WFrows f) : WFrows (setColList f c vals) := by
  unfold setColList
  cases hk : colIdx f c with
  | some k =>
    intro r hr
    rcases setColAtAux_mem_length k f.rows vals r hr with ⟨r0, hr0, hl⟩
    exact hl.trans (hwf r0 hr0)
  | none =>
    intro r hr
    rcases appendColAux_mem_length f.rows vals r hr with ⟨r0, hr0, hl⟩
    show r.length = (f.cols ++ [c]).length
    rw [hl, hwf r0 hr0]
    simp

theorem setColList_rows_length (f : Frame) (c : String) (vals : List Val) :
    (setColList f c vals).rows.length = f.rows.length := by
  unfold setColList
  cases colIdx f c with
  | some k => exact setColAtAux_length k f.rows vals
  | none => exact appendColAux_length f.rows vals

theorem mem_setColList_self (f : Frame) (c : String) (vals : List Val) :
    c ∈ (setColList f c vals).cols := by
  unfold setColList
  cases hk : colIdx f c with
  | some k => exact mem_of_colIdxAux c f.cols k hk
  | none => exact List.mem_append_right _ (List.mem_singleton.2 rfl)

theorem not_mem_eraseCol (f : Frame) (c : String) : c ∉ (eraseCol f c).cols := by
  intro h
  rcases List.mem_filter.1 h with ⟨_, hdec⟩
  simp at hdec

theorem WFrows_setColAligned (f : Frame) (c : String) (s : List (Val × Val))
    (hwf : WFrows f) : WFrows (setColAligned f c s) :=
  WFrows_setColList f c _ hwf

theorem irrStep_ok_shape
    (tz : Val → Val → Val) (cs : Val → Val → Val → List Val → String → List Val)
    (meta : Frame) (tsC sC csC msC latC lonC it : String) (acc c : Frame) (site : Val)
    (hok : irrStep tz cs meta tsC sC csC msC latC lonC it acc site = .ok c) :
    ∃ s, c = setColAligned acc csC s := by
  unfold irrStep at hok
  cases h1 : maskEqCol meta msC site with
  | error e => rw [h1, err_bind] at hok; exact absurd hok (by simp)
  | ok mm =>
    rw [h1, ok_bind] at hok
    cases h2 : maskEqCol acc sC site with
    | error e => rw [h2, err_bind] at hok; exact absurd hok (by simp)
    | ok pm =>
      rw [h2, ok_bind] at hok
      cases h3 : locMaskGetCol acc pm tsC with
      | error e => rw [h3, err_bind] at hok; exact absurd hok (by simp)
      | ok times =>
        rw [h3, ok_bind] at hok
        cases h4 : locMaskGetCol meta mm latC with
        | error e => rw [h4, err_bind] at hok; exact absurd hok (by simp)
        | ok lats =>
          rw [h4, ok_bind] at hok
          cases h5 : ilocFirst lats with
          | error e => rw [h5, err_bind] at hok; exact absurd hok (by simp)
          | ok lat =>
            rw [h5, ok_bind] at hok
            cases h6 : locMaskGetCol meta mm lonC with
            | error e => rw [h6, err_bind] at hok; exact absurd hok (by simp)
            | ok lons =>
              rw [h6, ok_bind] at hok
              cases h7 : ilocFirst lons with
              | error e => rw [h7, err_bind] at hok; exact absurd hok (by simp)
              | ok lon =>
                rw [h7, ok_bind] at hok
                by_cases hp : it = "poa"
                · rw [if_pos hp] at hok
                  exact absurd hok (by simp [throw, throwThe, MonadExceptOf.throw])
                · rw [if_neg hp] at hok
                  by_cases hv : it = "dni" ∨ it = "ghi" ∨ it = "dhi"
                  · rw [if_pos hv] at hok
                    cases hok
                    exact ⟨_, rfl⟩
                  · rw [if_neg hv] at hok
                    exact absurd hok (by simp [throw, throwThe, MonadExceptOf.throw])

/-- Claim C5: the dataset returned with drop=true has exactly the rows of
the drop=false dataset minus those flagged by the returned mask series;
the mask series returned is the same pre-drop, full-dataset mask in both
cases; and the mask column is absent from the drop=true dataset.  The
`clearsky_limits` collaborator is assumed to return a mask aligned to its
input (one boolean per row), per the specified interface. -/
theorem C5_drop_equals_mask_filter
    (tz : Val → Val → Val) (cs : Val → Val → Val → List Val → String → List Val)
    (lim : List Val → List Val → Rat → List Bool) (prod : Frame)
    (tsC sC irrC csC : String) (meta : Frame) (msC latC lonC : String)
    (it : String) (csi : Rat) (F : Frame) (m : List Bool)
    (hwf : WFrows prod)
    (hlen : ∀ a b c2, (lim a b c2).length = a.length)
    (hok : prod_irradiance_filter tz cs lim prod tsC sC irrC csC meta msC latC lonC
      false it csi = .ok (F, m)) :
    prod_irradiance_filter tz cs lim prod tsC sC irrC csC meta msC latC lonC
      true it csi
      = .ok (eraseCol (filterRowsByMask F (m.map (fun b => !b))) "mask", m) ∧
    "mask" ∉ (eraseCol (filterRowsByMask F (m.map (fun b => !b))) "mask").cols ∧
    maskEqCol F "mask" (Val.bool false) = .ok (m.map (fun b => !b)) := by
  have hcore0 : prodIrrCore tz cs lim prod tsC sC irrC csC meta msC latC lonC it csi
      = .ok (F, m) := by
    unfold prod_irradiance_filter at hok
    cases hc : prodIrrCore tz cs lim prod tsC sC irrC csC meta msC latC lonC it csi with
    | error e => rw [hc, err_bind] at hok; exact absurd hok (by simp)
    | ok r =>
      rw [hc, ok_bind, if_pos (by decide : ¬ false = true)] at hok
      cases hok
      rfl
  have hcore := hcore0
  unfold prodIrrCore at hcore
  cases hm2 : getCol meta msC with
  | error e => rw [hm2, err_bind] at hcore; exact absurd hcore (by simp)
  | ok mvals =>
    rw [hm2, ok_bind] at hcore
    cases hfold : (pySet mvals).foldlM
        (irrStep tz cs meta tsC sC csC msC latC lonC it) prod with
    | error e => rw [hfold, err_bind] at hcore; exact absurd hcore (by simp)
    | ok prodF =>
      rw [hfold, ok_bind] at hcore
      cases hirr : getCol prodF irrC with
      | error e => rw [hirr, err_bind] at hcore; exact absurd hcore (by simp)
      | ok irrV =>
        rw [hirr, ok_bind] at hcore
        cases hcsv : getCol prodF csC with
        | error e => rw [hcsv, err_bind] at hcore; exact absurd hcore (by simp)
        | ok csV =>
          rw [hcsv, ok_bind] at hcore
          have hFm : F = setColList prodF "mask" ((lim irrV csV csi).map Val.bool)
              ∧ m = lim irrV csV csi := by
            cases hcore
            exact ⟨rfl, rfl⟩
          have hwfF : WFrows prodF := by
            refine foldlM_ok_inv WFrows
              (irrStep tz cs meta tsC sC csC msC latC lonC it) (pySet mvals)
              prod prodF ?_ hfold hwf
            intro acc a c _ hP hstep
            rcases irrStep_ok_shape tz cs meta tsC sC csC msC latC lonC it acc c a hstep
              with ⟨s, rfl⟩
            exact WFrows_setColAligned acc csC s hP
          have hmlen : ((lim irrV csV csi).map Val.bool).length = prodF.rows.length := by
            rw [List.length_map, hlen]
            exact getCol_length prodF irrC irrV hirr
          have hkeep : maskEqCol F "mask" (Val.bool false) = .ok (m.map (fun b => !b)) := by
            rw [hFm.1, maskEqCol_ok _ "mask" (Val.bool false) _
              (getCol_setColList_self prodF "mask" _ hwfF hmlen), hFm.2, List.map_map]
            refine congrArg Except.ok (List.map_congr_left ?_)
            intro b _
            cases b <;> rfl
          refine ⟨?_, not_mem_eraseCol _ "mask", hkeep⟩
          unfold prod_irradiance_filter
          rw [hcore0, ok_bind, if_neg (by decide : ¬ ¬ true = true), hkeep, ok_bind]
          dsimp only
          have hmem : "mask" ∈ (filterRowsByMask F (m.map (fun b => !b))).cols := by
            show "mask" ∈ F.cols
            rw [hFm.1]
            exact mem_setColList_self prodF "mask" _
          unfold dropColE
          rw [if_pos hmem]
          rfl

/-- Witness for claim C5 at the concrete two-site frame: drop=true returns
the mask-filtered, mask-column-free frame and the same pre-drop mask. -/
theorem C5_drop_equals_mask_filter_witness :
    prod_irradiance_filter tzConst csLatitude limitsFalse prodIrrExample
      "ts" "sid" "irr" "csirr" metaIrrExample "msid" "lat" "lon" true "ghi" (11/10 : Rat)
      = .ok (eraseCol (filterRowsByMask C3Result ([false, false].map (fun b => !b)))
          "mask", [false, false]) ∧
    "mask" ∉ (eraseCol (filterRowsByMask C3Result ([false, false].map (fun b => !b)))
      "mask").cols ∧
    maskEqCol C3Result "mask" (Val.bool false) = .ok ([false, false].map (fun b => !b)) :=
  C5_drop_equals_mask_filter tzConst csLatitude limitsFalse prodIrrExample
    "ts" "sid" "irr" "csirr" metaIrrExample "msid" "lat" "lon" "ghi" (11/10 : Rat)
    C3Result [false, false] (by unfold WFrows; decide)
    (fun a b c2 => by simp [limitsFalse]) (by decide)

/-! ## Lemmas for the censoring lookup characterization -/

/-- First row keyed by the pair `k` in the first-fails list. -/
def lookupPairKey (l : List ((Val × Val) × Row)) (k : Val × Val) : Option Row :=
  (l.find? (fun p => p.1 = k)).map (fun p => p.2)

theorem lookupKey_map_of_mem (G : Val → Row) :
    ∀ (keys : List Val) (s : Val), s ∈ keys →
      lookupKey (keys.map (fun x => (x, G x))) s = some (G s) := by
  intro keys
  induction keys with
  | nil => intro s h; exact absurd h (List.not_mem_nil s)
  | cons x t ih =>
    intro s h
    by_cases hx : x = s
    · subst hx
      unfold lookupKey
      rw [List.map_cons, List.find?_cons_of_pos _ (by simp)]
      rfl
    · unfold lookupKey
      rw [List.map_cons, List.find?_cons_of_neg _ (by simpa using hx)]
      refine ih s ?_
      rcases List.mem_cons.1 h with rfl | h2
      · exact absurd rfl hx
      · exact h2

theorem lookupPairKey_map_of_mem (G : Val × Val → Row) :
    ∀ (keys : List (Val × Val)) (k : Val × Val), k ∈ keys →
      lookupPairKey (keys.map (fun x => (x, G x))) k = some (G k) := by
  intro keys
  induction keys with
  | nil => intro k h; exact absurd h (List.not_mem_nil k)
  | cons x t ih =>
    intro k h
    by_cases hx : x = k
    · subst hx
      unfold lookupPairKey
      rw [List.map_cons, List.find?_cons_of_pos _ (by simp)]
      rfl
    · unfold lookupPairKey
      rw [List.map_cons, List.find?_cons_of_neg _ (by simpa using hx)]
      refine ih k ?_
      rcases List.mem_cons.1 h with rfl | h2
      · exact absurd rfl hx
      · exact h2

theorem lookupPairKey_none_of_not_mem :
    ∀ (l : List ((Val × Val) × Row)) (k : Val × Val), (∀ p ∈ l, p.1 ≠ k) →
      lookupPairKey l k = none := by
  intro l
  induction l with
  | nil => intro k _; rfl
  | cons p t ih =>
    intro k h
    unfold lookupPairKey
    rw [List.find?_cons_of_neg _ (by simpa using h p (List.mem_cons_self p t))]
    exact ih k (fun q hq => h q (List.mem_cons_of_mem p hq))

theorem zip_map_fst_snd :
    ∀ (l : List ((Val × Val) × Row)),
      (l.map (fun p => p.1)).zip (l.map (fun p => p.2)) = l := by
  intro l
  induction l with
  | nil => rfl
  | cons p t ih => simp [List.zip_cons_cons, ih]

theorem dedup_aux_mem (a : Val × Val) :
    ∀ (l acc : List (Val × Val)),
      (a ∈ l.foldl (fun acc v => if v ∈ acc then acc else acc ++ [v]) acc ↔
        a ∈ acc ∨ a ∈ l) := by
  intro l
  induction l with
  | nil => intro acc; simp
  | cons v t ih =>
    intro acc
    by_cases hv : v ∈ acc
    · simp only [List.foldl_cons, if_pos hv, ih acc, List.mem_cons]
      constructor
      · rintro (h | h)
        · exact Or.inl h
        · exact Or.inr (Or.inr h)
      · rintro (h | h | h)
        · exact Or.inl h
        · exact Or.inl (h ▸ hv)
        · exact Or.inr h
    · simp only [List.foldl_cons, if_neg hv, ih (acc ++ [v]), List.mem_append,
        List.mem_singleton, List.mem_cons]
      tauto

theorem dedup_aux_nodup :
    ∀ (l acc : List (Val × Val)), acc.Nodup →
      (l.foldl (fun acc v => if v ∈ acc then acc else acc ++ [v]) acc).Nodup := by
  intro l
  induction l with
  | nil => intro acc h; simpa using h
  | cons v t ih =>
    intro acc h
    by_cases hv : v ∈ acc
    · simp only [List.foldl_cons, if_pos hv]
      exact ih acc h
    · simp only [List.foldl_cons, if_neg hv]
      refine ih (acc ++ [v]) ?_
      rw [List.nodup_append]
      refine ⟨h, List.nodup_singleton v, ?_⟩
      intro a ha hb
      simp only [List.mem_singleton] at hb
      subst hb
      exact hv ha

theorem mem_keyPairs (k : Val × Val) (svals gvals : List Val) :
    k ∈ keyPairs svals gvals ↔
      k ∈ (svals.zip gvals).filter
        (fun p => decide (p.1 ≠ Val.na) && decide (p.2 ≠ Val.na)) := by
  unfold keyPairs
  refine (dedup_aux_mem k
    ((svals.zip gvals).filter (fun p => decide (p.1 ≠ Val.na) && decide (p.2 ≠ Val.na)))
    []).trans ?_
  simp

theorem nodup_keyPairs (svals gvals : List Val) : (keyPairs svals gvals).Nodup := by
  unfold keyPairs
  exact dedup_aux_nodup
    ((svals.zip gvals).filter (fun p => decide (p.1 ≠ Val.na) && decide (p.2 ≠ Val.na)))
    [] List.nodup_nil

theorem mem_siteKeysList (s : Val) (svals : List Val) (hs : s ∈ svals)
    (hna : s ≠ Val.na) : s ∈ siteKeysList svals := by
  unfold siteKeysList
  rw [mem_uniqueVals]
  exact List.mem_filter.2 ⟨hs, by simpa using hna⟩

/-- The effect of the censored prefill loop on one cell of the keyed row
list: a row keyed by a processed site receives that site's last-fails row. -/
def prefillApplied (lastF : List (Val × Row)) (sitesL : List Val)
    (kr : (Val × Val) × Row) : (Val × Val) × Row :=
  match lookupKey lastF kr.1.1 with
  | some r => if kr.1.1 ∈ sitesL then (kr.1, r) else kr
  | none => kr

/-- The effect of the observed overwrite on one cell of the keyed row
list: a row keyed by an observed pair receives that pair's first-fails row. -/
def overwriteApplied (firstF : List ((Val × Val) × Row))
    (kr : (Val × Val) × Row) : (Val × Val) × Row :=
  match lookupPairKey firstF kr.1 with
  | some r => (kr.1, r)
  | none => kr

theorem prefillApplied_fst (lastF : List (Val × Row)) (sitesL : List Val)
    (kr : (Val × Val) × Row) : (prefillApplied lastF sitesL kr).1 = kr.1 := by
  unfold prefillApplied
  cases lookupKey lastF kr.1.1 with
  | none => rfl
  | some r =>
    dsimp only
    by_cases hm : kr.1.1 ∈ sitesL
    · rw [if_pos hm]
    · rw [if_neg hm]

theorem overwriteApplied_fst (firstF : List ((Val × Val) × Row))
    (kr : (Val × Val) × Row) : (overwriteApplied firstF kr).1 = kr.1 := by
  unfold overwriteApplied
  cases lookupPairKey firstF kr.1 with
  | none => rfl
  | some r => rfl

theorem prefill_result (lastF : List (Val × Row)) :
    ∀ (sitesL : List Val) (pairs : List ((Val × Val) × Row)),
      (∀ s ∈ sitesL, ∃ r, lookupKey lastF s = some r) →
      sitesL.foldlM (prefillStep lastF) pairs
        = .ok (pairs.map (prefillApplied lastF sitesL)) := by
  intro sitesL
  induction sitesL with
  | nil =>
    intro pairs _
    rw [List.foldlM_nil]
    have hid : pairs.map (prefillApplied lastF []) = pairs := by
      refine (List.map_congr_left ?_).trans (List.map_id _)
      intro kr _
      unfold prefillApplied
      cases lookupKey lastF kr.1.1 with
      | none => rfl
      | some r =>
        dsimp only
        rw [if_neg (List.not_mem_nil _)]
        rfl
    rw [hid]
    rfl
  | cons s rest ih =>
    intro pairs hlk
    rcases hlk s (List.mem_cons_self s rest) with ⟨r, hr⟩
    have hstep : prefillStep lastF pairs s
        = .ok (pairs.map (fun kr => if kr.1.1 = s then (kr.1, r) else kr)) := by
      unfold prefillStep
      rw [hr]
      rfl
    rw [List.foldlM_cons, hstep, ok_bind,
      ih _ (fun x hx => hlk x (List.mem_cons_of_mem s hx))]
    refine congrArg Except.ok ?_
    rw [List.map_map]
    refine List.map_congr_left ?_
    intro kr _
    show prefillApplied lastF rest (if kr.1.1 = s then (kr.1, r) else kr)
      = prefillApplied lastF (s :: rest) kr
    by_cases hks : kr.1.1 = s
    · rw [if_pos hks]
      unfold prefillApplied
      dsimp only
      rw [hks, hr]
      dsimp only
      by_cases hmem : s ∈ rest
      · rw [if_pos hmem, if_pos (List.mem_cons_self s rest)]
      · rw [if_neg hmem, if_pos (List.mem_cons_self s rest)]
    · rw [if_neg hks]
      unfold prefillApplied
      cases h2 : lookupKey lastF kr.1.1 with
      | none => rfl
      | some r2 =>
        dsimp only
        by_cases hmem : kr.1.1 ∈ rest
        · rw [if_pos hmem, if_pos (List.mem_cons_of_mem s hmem)]
        · rw [if_neg hmem, if_neg (fun hc => by
            rcases List.mem_cons.1 hc with h3 | h3
            · exact hks h3
            · exact hmem h3)]

theorem overwrite_result :
    ∀ (firstF : List ((Val × Val) × Row)) (pairs : List ((Val × Val) × Row)),
      (firstF.map (fun p => p.1)).Nodup →
      firstF.foldl overwriteStep pairs = pairs.map (overwriteApplied firstF) := by
  intro firstF
  induction firstF with
  | nil =>
    intro pairs _
    rw [List.foldl_nil]
    refine ((List.map_congr_left ?_).trans (List.map_id _)).symm
    intro kr _
    rfl
  | cons p0 rest ih =>
    intro pairs hnd
    have hnd2 : (p0.1 :: rest.map (fun p => p.1)).Nodup := by simpa using hnd
    rcases List.nodup_cons.1 hnd2 with ⟨hp0, hndrest⟩
    rw [List.foldl_cons]
    rw [ih (overwriteStep pairs p0) hndrest]
    unfold overwriteStep
    rw [List.map_map]
    refine List.map_congr_left ?_
    intro kr _
    show overwriteApplied rest (if kr.1 = p0.1 then (kr.1, p0.2) else kr)
      = overwriteApplied (p0 :: rest) kr
    by_cases hk : kr.1 = p0.1
    · rw [if_pos hk]
      unfold overwriteApplied
      dsimp only
      have hn : lookupPairKey rest kr.1 = none := by
        refine lookupPairKey_none_of_not_mem rest kr.1 ?_
        intro q hq hc
        refine hp0 ?_
        rw [← hk, ← hc]
        exact List.mem_map.2 ⟨q, hq, rfl⟩
      rw [hn]
      have hone : lookupPairKey (p0 :: rest) kr.1 = some p0.2 := by
        unfold lookupPairKey
        rw [List.find?_cons_of_pos _ (by simpa using hk.symm)]
        rfl
      rw [hone]
    · rw [if_neg hk]
      unfold overwriteApplied
      have heq : lookupPairKey (p0 :: rest) kr.1 = lookupPairKey rest kr.1 := by
        unfold lookupPairKey
        rw [List.find?_cons_of_neg _ (by simpa using fun hc => hk hc.symm)]
      rw [heq]

theorem map_key_of_tag (R : Val × Val → Row) :
    ∀ (l : List (Val × Val)),
      (l.map (fun k => (k, R k))).map (fun p => p.1) = l := by
  intro l
  induction l with
  | nil => rfl
  | cons a t ih => simp [ih]

theorem nodup_firstFails_keys (om : Frame) (site group_by : String) (si gi : Nat) :
    ((firstFailsList om site group_by si gi).map (fun p => p.1)).Nodup := by
  unfold firstFailsList
  rw [map_key_of_tag]
  exact nodup_keyPairs _ _

theorem keyPairs_mem_components (k : Val × Val) (svals gvals : List Val)
    (hk : k ∈ keyPairs svals gvals) :
    k.1 ∈ uniqueVals svals ∧ k.2 ∈ uniqueVals gvals := by
  obtain ⟨a, b⟩ := k
  have hz := List.mem_of_mem_filter ((mem_keyPairs (a, b) svals gvals).1 hk)
  exact ⟨(mem_uniqueVals _ _).2 (List.of_mem_zip hz).1,
    (mem_uniqueVals _ _).2 (List.of_mem_zip hz).2⟩

/-- The prefill loop followed by the overwrite loop, both expressed as
pointwise maps, tags each cross-product key with the final row computed
for it. -/
theorem censChain_as_map (lastF : List (Val × Row)) (sitesL : List Val)
    (firstF : List ((Val × Val) × Row)) (naRow : Row) (idx : List (Val × Val)) :
    ((idx.map (fun k => (k, naRow))).map (prefillApplied lastF sitesL)).map
        (overwriteApplied firstF)
      = idx.map (fun k =>
          (k, (overwriteApplied firstF (prefillApplied lastF sitesL (k, naRow))).2)) := by
  rw [List.map_map, List.map_map]
  refine List.map_congr_left ?_
  intro k _
  show overwriteApplied firstF (prefillApplied lastF sitesL (k, naRow))
    = (k, (overwriteApplied firstF (prefillApplied lastF sitesL (k, naRow))).2)
  rcases hW : overwriteApplied firstF (prefillApplied lastF sitesL (k, naRow)) with ⟨a, b⟩
  have h1 : a = k := by
    have h2 := overwriteApplied_fst firstF (prefillApplied lastF sitesL (k, naRow))
    rw [prefillApplied_fst, hW] at h2
    simpa using h2
  subst h1
  rfl

/-- Row lookup in a frame whose index/rows are the two projections of one
keyed row list is keyed lookup in that list. -/
theorem rowAt_mk (outC : List String) (X : List ((Val × Val) × Row)) (k : Val × Val) :
    rowAt ⟨outC, X.map (fun p => p.1), X.map (fun p => p.2)⟩ k = lookupPairKey X k := by
  unfold rowAt lookupPairKey
  dsimp only
  rw [zip_map_fst_snd]

/-- A jointly observed pair's final row is its first-fails row: the
overwrite step finds the pair in the groupby-first result. -/
theorem censValue_observed (om : Frame) (site group_by : String) (si gi : Nat)
    (sitesL : List Val) (naRow : Row) (k : Val × Val)
    (hk : k ∈ keyPairs (om.rows.map (fun r => r.getD si Val.na))
            (om.rows.map (fun r => r.getD gi Val.na))) :
    (overwriteApplied (firstFailsList om site group_by si gi)
       (prefillApplied (lastFailsList om site group_by si) sitesL (k, naRow))).2
      = firstRowFor om site group_by si gi k := by
  unfold overwriteApplied
  have hlkp : lookupPairKey (firstFailsList om site group_by si gi)
      (prefillApplied (lastFailsList om site group_by si) sitesL (k, naRow)).1
      = some (firstRowFor om site group_by si gi k) := by
    rw [prefillApplied_fst]
    show lookupPairKey (firstFailsList om site group_by si gi) k
      = some (firstRowFor om site group_by si gi k)
    unfold firstFailsList
    exact lookupPairKey_map_of_mem _ _ k hk
  rw [hlkp]

/-- A never-jointly-observed pair's final row is its site's last-fails
row: the overwrite step finds nothing and the prefill survives. -/
theorem censValue_censored (om : Frame) (site group_by : String) (si gi : Nat)
    (sitesL : List Val) (naRow : Row) (s g : Val)
    (hsmem : s ∈ sitesL)
    (hlk : lookupKey (lastFailsList om site group_by si) s
        = some (lastRowFor om site group_by si s))
    (hnotin : (s, g) ∉ keyPairs (om.rows.map (fun r => r.getD si Val.na))
            (om.rows.map (fun r => r.getD gi Val.na))) :
    (overwriteApplied (firstFailsList om site group_by si gi)
       (prefillApplied (lastFailsList om site group_by si) sitesL ((s, g), naRow))).2
      = lastRowFor om site group_by si s := by
  unfold overwriteApplied
  have hnone : lookupPairKey (firstFailsList om site group_by si gi)
      (prefillApplied (lastFailsList om site group_by si) sitesL ((s, g), naRow)).1
      = none := by
    rw [prefillApplied_fst]
    refine lookupPairKey_none_of_not_mem _ _ ?_
    intro p hp hc
    unfold firstFailsList at hp
    rcases List.mem_map.1 hp with ⟨k0, hk0, rfl⟩
    refine hnotin ?_
    have hc2 : k0 = (s, g) := hc
    rw [← hc2]
    exact hk0
  rw [hnone]
  dsimp only
  unfold prefillApplied
  dsimp only
  rw [hlk]
  dsimp only
  rw [if_pos hsmem]

set_option maxHeartbeats 1600000 in
/-- Amended claim C1: in the right-censoring output, every jointly
observed non-NaN (site, group) pair maps to the row built from each
column's FIRST NON-NULL value over that pair's event rows
(groupby-first semantics; equal to the pair's first event row only when
no cell is missing) with was_observed = true, and every cross-product
pair that is never jointly observed maps to the row built from that
site's per-column LAST NON-NULL values with the group column dropped and
was_observed = false.  Site labels are assumed non-NaN: the prefill
lookup raises on a NaN site label instead of returning a frame. -/
theorem C1_censoring_lookup
    (om : Frame) (group_by site : String) (svals gvals : List Val) (si gi : Nat)
    (hsg : site ≠ group_by)
    (hci : colIdx om site = some si) (hcg : colIdx om group_by = some gi)
    (hsv : svals = om.rows.map (fun r => r.getD si Val.na))
    (hgv : gvals = om.rows.map (fun r => r.getD gi Val.na))
    (hna : Val.na ∉ svals) :
    ∃ F, identify_right_censored_data om group_by site = .ok F ∧
      (∀ k, k ∈ keyPairs svals gvals →
        rowAt F k = some (firstRowFor om site group_by si gi k)) ∧
      (∀ s g, s ∈ uniqueVals svals → g ∈ uniqueVals gvals →
        (s, g) ∉ keyPairs svals gvals →
        rowAt F (s, g) = some (lastRowFor om site group_by si s)) := by
  subst hsv
  subst hgv
  have hlastlk : ∀ s2, s2 ∈ uniqueVals (om.rows.map (fun r => r.getD si Val.na)) →
      lookupKey (lastFailsList om site group_by si) s2
        = some (lastRowFor om site group_by si s2) := by
    intro s2 hs2
    unfold lastFailsList
    refine lookupKey_map_of_mem _ _ s2 ?_
    refine mem_siteKeysList s2 _ ((mem_uniqueVals _ _).1 hs2) ?_
    intro hc
    subst hc
    exact hna ((mem_uniqueVals _ _).1 hs2)
  rw [identify_right_censored_data, if_neg hsg, hci, hcg]
  dsimp only
  rw [prefill_result _ _ _ (fun s2 hs2 =>
      ⟨lastRowFor om site group_by si s2, hlastlk s2 hs2⟩),
    ok_bind,
    overwrite_result _ _ (nodup_firstFails_keys om site group_by si gi),
    censChain_as_map]
  refine ⟨_, rfl, ?_, ?_⟩
  · intro k hk
    rcases keyPairs_mem_components k _ _ hk with ⟨hc1, hc2⟩
    rw [rowAt_mk, lookupPairKey_map_of_mem _ _ k ((mem_crossProd k _ _).2 ⟨hc1, hc2⟩)]
    exact congrArg some (censValue_observed om site group_by si gi
      (uniqueVals (om.rows.map (fun r => r.getD si Val.na)))
      ((flagCols (otherCols om.cols site group_by)).map (fun _ => Val.na)) k hk)
  · intro s g hsu hgu hnk
    rw [rowAt_mk, lookupPairKey_map_of_mem _ _ (s, g)
      ((mem_crossProd (s, g) _ _).2 ⟨hsu, hgu⟩)]
    exact congrArg some (censValue_censored om site group_by si gi
      (uniqueVals (om.rows.map (fun r => r.getD si Val.na)))
      ((flagCols (otherCols om.cols site group_by)).map (fun _ => Val.na))
      s g hsu (hlastlk s hsu) hnk)

/-- Witness for the amended claim C1: on the worked example dataset the
observed pairs (A, G1) and (B, G2) receive their groupby-first rows with
was_observed true and the unobserved pairs (A, G2) and (B, G1) receive
their site's last-event rows with was_observed false. -/
theorem C1_censoring_lookup_witness :
    ∃ F, identify_right_censored_data omExample "grp" "sid" = .ok F ∧
      (∀ k, k ∈ keyPairs omExampleSiteVals omExampleGroupVals →
        rowAt F k = some (firstRowFor omExample "sid" "grp" 0 1 k)) ∧
      (∀ s g, s ∈ uniqueVals omExampleSiteVals → g ∈ uniqueVals omExampleGroupVals →
        (s, g) ∉ keyPairs omExampleSiteVals omExampleGroupVals →
        rowAt F (s, g) = some (lastRowFor omExample "sid" "grp" 0 s)) :=
  C1_censoring_lookup omExample "grp" "sid" omExampleSiteVals omExampleGroupVals 0 1
    (by decide) (by decide) (by decide) (by decide) (by decide) (by decide)
